import Mathlib

/-!
Verification of the BarCat ordering-reconciliation and membership engine.

The definitions below are shallow embeddings of the extension's source:
host-browser tabs become a list of records (list position = host index),
the persisted space store becomes a list of `Space` records, and each
source function is transcribed as a pure Lean function over that state,
with host-call outcomes passed in explicitly and the side effects the
source performs (tab moves, retry scheduling, persisting) reported in an
`Effect` record.
-/

namespace BarCat

/-! ## Definitions: the embedded program -/

/-- A host-browser tab as seen by `chrome.tabs.query`: its id, whether it
is host-level pinned, and the tab-group it belongs to. The position in
the host list is the tab's window index. -/
structure HTab where
  id : Nat
  pinned : Bool
  groupId : Nat
  deriving Repr, DecidableEq

/-- A persisted space record (the fields the reconciliation engine touches). -/
structure Space where
  id : Nat
  spaceBookmarks : List Nat
  temporaryTabs : List Nat
  lastTab : Option Nat
  deriving Repr, DecidableEq

/-- Accumulator form of `uniqPreserveOrder` from the source: skips falsy
ids (`if (!id) continue`, i.e. id 0) and previously seen ids. -/
def uniqGo (seen : List Nat) : List Nat → List Nat
  | [] => []
  | id :: rest =>
    if id = 0 then uniqGo seen rest
    else if id ∈ seen then uniqGo seen rest
    else id :: uniqGo (id :: seen) rest

/-- `uniqPreserveOrder` from the source (part_002): drops falsy ids and
duplicates, preserving first occurrence. -/
def uniqPreserveOrder (ids : List Nat) : List Nat :=
  uniqGo [] ids

/-- Spec-side deduplication "preserving first occurrence" exactly as the
spec words it (no dropping of any particular id value). Used to state
claims; compared against the source's `uniqPreserveOrder`. -/
def dedupGo (seen : List Nat) : List Nat → List Nat
  | [] => []
  | id :: rest =>
    if id ∈ seen then dedupGo seen rest
    else id :: dedupGo (id :: seen) rest

/-- Spec-side first-occurrence dedup. -/
def dedupFirstOccurrence (ids : List Nat) : List Nat :=
  dedupGo [] ids

/-- `chrome.tabs.query({groupId})`, already sorted by host index (list order). -/
def queryGroup (host : List HTab) (g : Nat) : List HTab :=
  host.filter (fun t => t.groupId == g)

/-- The group's tabs with host-level pinned tabs excluded
(`groupTabs.filter(t => !t.pinned)`). -/
def hostGroupUnpinned (host : List HTab) (g : Nat) : List HTab :=
  (queryGroup host g).filter (fun t => !t.pinned)

/-- Host Browser Service contract for the batched `chrome.tabs.move(ids, {index})`:
the listed tabs are placed consecutively, in list order, at the target
index; all other tabs keep their relative order. -/
def moveTabs (host : List HTab) (ids : List Nat) (idx : Nat) : List HTab :=
  let moved := ids.filterMap (fun i => host.find? (fun t => t.id == i))
  let rest := host.filter (fun t => !(ids.contains t.id))
  rest.take idx ++ moved ++ rest.drop idx

/-- One entry of `reconcileRetryBySpace`: the pending timer id and the
attempt count it will retry with. -/
structure RetryEntry where
  timeoutId : Nat
  attempt : Nat
  deriving Repr, DecidableEq

/-- The retry-timer state: a counter for fresh timer ids, the set of
currently pending (not yet cleared/fired) timers, and the per-space map
`reconcileRetryBySpace`. -/
structure RetryState where
  nextTimer : Nat
  active : List Nat
  bySpace : List (Nat × RetryEntry)
  deriving Repr, DecidableEq

/-- `clearTimeout`: the timer stops being pending. -/
def clearPendingTimer (r : RetryState) (t : Nat) : RetryState :=
  { r with active := r.active.filter (fun x => x ≠ t) }

/-- `scheduleReconcileRetry` (part_002:2077): clears any existing timer for
the space, starts a fresh timer and records it in the per-space map. -/
def scheduleReconcileRetry (r : RetryState) (spaceId : Nat) (attempt : Nat) : RetryState :=
  let r1 :=
    match r.bySpace.lookup spaceId with
    | some existing => clearPendingTimer r existing.timeoutId
    | none => r
  let timeoutId := r1.nextTimer
  { nextTimer := r1.nextTimer + 1
    active := r1.active ++ [timeoutId]
    bySpace := (r1.bySpace.filter (fun p => p.1 ≠ spaceId)) ++ [(spaceId, ⟨timeoutId, attempt⟩)] }

/-- Who initiated the reorder: the extension itself or the host browser. -/
inductive Source
  | arcify
  | chrome
  deriving Repr, DecidableEq

/-- Options of `reconcileSpaceTabOrdering`. -/
structure Opts where
  source : Source
  movedTabId : Option Nat
  retryAttempt : Nat
  deriving Repr, DecidableEq

/-- Default options (`{source = 'arcify', movedTabId = null, _retryAttempt = 0}`). -/
def Opts.default : Opts := ⟨Source.arcify, none, 0⟩

/-- Outcome of the host's `chrome.tabs.move` call, passed in as an oracle:
either the host accepts the move or rejects it with an error message. -/
inductive MoveOutcome
  | success
  | failure (message : String)
  deriving Repr, DecidableEq

/-- Observable side effects of one `reconcileSpaceTabOrdering` run:
the move call issued to the host (ids and index), any retry scheduled
(attempt, delayMs), whether the engine gave up and warned, any error
rethrown to the caller, and whether `saveSpaces` persisted the store. -/
structure Effect where
  moveIssued : Option (List Nat × Nat)
  retryScheduled : Option (Nat × Nat)
  gaveUpWarned : Bool
  errorThrown : Option String
  saved : Bool
  deriving Repr, DecidableEq

/-- The empty effect (nothing happened). -/
def Effect.none : Effect := ⟨Option.none, Option.none, false, Option.none, false⟩

/-- Engine state: the persisted space store, the host tab list, and the
retry-timer state. -/
structure EngState where
  spaces : List Space
  host : List HTab
  retry : RetryState
  deriving Repr, DecidableEq

/-- Replace the first space whose id matches (the source mutates the first
`find` result in place). -/
def setSpaceFirst : List Space → Space → List Space
  | [], _ => []
  | s :: rest, sp => if s.id = sp.id then sp :: rest else s :: setSpaceFirst rest sp

/-- Prefix test over character lists (structural, kernel-computable). -/
def isPrefixOfL : List Char → List Char → Bool
  | [], _ => true
  | _ :: _, [] => false
  | a :: as, b :: bs => a == b && isPrefixOfL as bs

/-- Infix test over character lists (structural, kernel-computable). -/
def isInfixOfL (p : List Char) : List Char → Bool
  | [] => p.isEmpty
  | c :: rest => isPrefixOfL p (c :: rest) || isInfixOfL p rest

/-- JavaScript `s.includes(pattern)`: substring containment. -/
def strIncludes (s pattern : String) : Bool :=
  isInfixOfL pattern.data s.data

/-- Detection of the host's mid-drag contention error:
`message.includes('Tabs cannot be edited right now')`. -/
def isChromeMidDrag (message : String) : Bool :=
  strIncludes message "Tabs cannot be edited right now"

/-- The `source === 'chrome'` branch of `reconcileSpaceTabOrdering`
(part_002:2120-2135): recompute `temporaryTabs` from the host's current
order minus bookmark-tracked ids; if the moved tab is a bookmark-tracked
id sitting after the first temporary id, push it to the end of
`spaceBookmarks`. -/
def applyChromeSource (space : Space) (chromeOrder : List Nat) (movedTabId : Option Nat) : Space :=
  let bookmarkSet := space.spaceBookmarks
  let chromeTemps := chromeOrder.filter (fun id => !(bookmarkSet.contains id))
  let sp := { space with temporaryTabs := uniqPreserveOrder chromeTemps }
  match movedTabId with
  | some moved =>
    if bookmarkSet.contains moved then
      match chromeOrder.findIdx? (fun id => id == moved),
            chromeOrder.findIdx? (fun id => !(bookmarkSet.contains id)) with
      | some movedIndex, some firstTempIndex =>
        if firstTempIndex < movedIndex then
          { sp with spaceBookmarks := (sp.spaceBookmarks.filter (fun id => id ≠ moved)) ++ [moved] }
        else sp
      | _, _ => sp
    else sp
  | none => sp

/-- `desiredBookmarks` (part_002:2138). -/
def desiredBookmarksOf (space : Space) (tabsInGroup : List Nat) : List Nat :=
  uniqPreserveOrder (space.spaceBookmarks.filter (fun id => tabsInGroup.contains id))

/-- `desiredTemps` (part_002:2139). -/
def desiredTempsOf (space : Space) (tabsInGroup : List Nat) : List Nat :=
  uniqPreserveOrder (space.temporaryTabs.filter
    (fun id => tabsInGroup.contains id && !((desiredBookmarksOf space tabsInGroup).contains id)))

/-- `desiredGroupOrder` (part_002:2140). -/
def desiredOrderOf (space : Space) (tabsInGroup : List Nat) : List Nat :=
  uniqPreserveOrder (desiredBookmarksOf space tabsInGroup ++ desiredTempsOf space tabsInGroup)

/-- The error-handling branch of `reconcileSpaceTabOrdering`
(part_002:2158-2185), given the retry state and the failure message:
on the recognized mid-drag contention message, schedule a capped-backoff
retry while attempts remain, else warn and give up; on any other message
rethrow. Returns updated retry state, the effect fields, and whether
`saveSpaces` is still reached (a rethrow skips it). -/
def handleMoveFailure (r : RetryState) (spaceId : Nat) (retryAttempt : Nat)
    (message : String) : RetryState × Option (Nat × Nat) × Bool × Option String × Bool :=
  if isChromeMidDrag message then
    let nextAttempt := retryAttempt + 1
    if nextAttempt ≤ 12 then
      let delayMs := min 1200 (200 + nextAttempt * 100)
      (scheduleReconcileRetry r spaceId nextAttempt, some (nextAttempt, delayMs), false, Option.none, true)
    else
      (r, Option.none, true, Option.none, true)
  else
    (r, Option.none, false, some message, false)

/-- Ids of a group's non-host-pinned tabs in host index order
(`groupTabsUnpinned.map(t => t.id)`). -/
def hostGroupOrderList (host : List HTab) (g : Nat) : List Nat :=
  (hostGroupUnpinned host g).map (fun t => t.id)

/-- The space record the desired order is computed from: on a
host-initiated (`chrome`) reorder the membership rewrite of
`applyChromeSource` runs first, otherwise the record is unchanged. -/
def spaceAfterSource (space : Space) (tabsInGroup : List Nat) (opts : Opts) : Space :=
  match opts.source with
  | Source.chrome => applyChromeSource space tabsInGroup opts.movedTabId
  | Source.arcify => space

/-- Body of `reconcileSpaceTabOrdering` after its early-return guards
(part_002:2115-2204), with `space` the record found for `spaceId`. -/
def reconcileCore (st : EngState) (spaceId : Nat) (opts : Opts)
    (outcome : MoveOutcome) (space : Space) : EngState × Effect :=
  let tabsInGroup := hostGroupOrderList st.host spaceId
  let space1 := spaceAfterSource space tabsInGroup opts
  let desiredGroupOrder := desiredOrderOf space1 tabsInGroup
  let spaces1 := setSpaceFirst st.spaces space1
  if tabsInGroup = desiredGroupOrder then
    ({ st with spaces := spaces1 },
     { Effect.none with saved := true })
  else
    let groupStartIndex := st.host.findIdx (fun t => t.id == tabsInGroup.headD 0)
    match outcome with
    | MoveOutcome.success =>
      ({ st with spaces := spaces1, host := moveTabs st.host desiredGroupOrder groupStartIndex },
       { moveIssued := some (desiredGroupOrder, groupStartIndex)
         retryScheduled := Option.none
         gaveUpWarned := false
         errorThrown := Option.none
         saved := true })
    | MoveOutcome.failure message =>
      match handleMoveFailure st.retry spaceId opts.retryAttempt message with
      | (r1, sched, gaveUp, thrown, saves) =>
        ({ st with spaces := spaces1, retry := r1 },
         { moveIssued := some (desiredGroupOrder, groupStartIndex)
           retryScheduled := sched
           gaveUpWarned := gaveUp
           errorThrown := thrown
           saved := saves })

/-- Shallow embedding of `reconcileSpaceTabOrdering(spaceId, opts)`
(part_002:2105-2204). The `outcome` oracle decides whether the host
accepts the batched move. DOM updates are outside the model; everything
else (space store, host order, retry timers, persisting, effects) is
returned. -/
def reconcileSpaceTabOrdering (st : EngState) (spaceId : Nat) (opts : Opts)
    (outcome : MoveOutcome) : EngState × Effect :=
  if spaceId = 0 then (st, Effect.none) else
  match st.spaces.find? (fun s => s.id == spaceId) with
  | Option.none => (st, Effect.none)
  | some space =>
    if (hostGroupUnpinned st.host spaceId).isEmpty then (st, Effect.none) else
    reconcileCore st spaceId opts outcome space

/-- Look a space up by id in the store, as the source does. -/
def getSpace (st : EngState) (spaceId : Nat) : Option Space :=
  st.spaces.find? (fun s => s.id == spaceId)

/-- The host-order query the claims talk about: ids of the group's tabs,
host-level pinned excluded, in host index order. -/
def hostGroupOrder (st : EngState) (spaceId : Nat) : List Nat :=
  hostGroupOrderList st.host spaceId

/-- Engine state refuting C1 as stated: tab 20 sits in space 1's group but
is tracked by neither `spaceBookmarks` nor `temporaryTabs`. -/
def c1State : EngState :=
  ⟨[⟨1, [10], [], Option.none⟩], [⟨20, false, 1⟩, ⟨10, false, 1⟩], ⟨0, [], []⟩⟩

/-- Witness engine state for C1/C2: all of space 1's group tabs tracked. -/
def c1WitnessState : EngState :=
  ⟨[⟨1, [5, 6], [7, 8], Option.none⟩],
   [⟨9, false, 2⟩, ⟨6, false, 1⟩, ⟨7, false, 1⟩, ⟨5, false, 1⟩, ⟨8, false, 1⟩],
   ⟨0, [], []⟩⟩

/-- Engine state refuting C2 as stated: the untracked tab 20 means the
desired order never matches the host order, so every call re-issues the
batched move. -/
def c2State : EngState :=
  ⟨[⟨1, [10], [], Option.none⟩], [⟨20, false, 1⟩, ⟨10, false, 1⟩], ⟨0, [], []⟩⟩

/-- Engine state refuting C4 as stated: bookmark-tracked id 5 sits after
the first temporary id 7 in the host order `[6,7,5]`, but the reconcile is
invoked without a `movedTabId`, so the persisted bookmark block is left
as `[5,6]` rather than corrected to `[6,5]`. -/
def c4State : EngState :=
  ⟨[⟨1, [5, 6], [7], Option.none⟩],
   [⟨6, false, 1⟩, ⟨7, false, 1⟩, ⟨5, false, 1⟩], ⟨0, [], []⟩⟩

/-- Well-formedness of the retry state: one map entry per space, and every
recorded timer id was issued before the current counter. -/
def retryWF (r : RetryState) : Prop :=
  (r.bySpace.map Prod.fst).Nodup ∧ ∀ p ∈ r.bySpace, p.2.timeoutId < r.nextTimer

instance (r : RetryState) : Decidable (retryWF r) := by
  rw [retryWF]
  infer_instance

/-- Engine state refuting the second half of C6: a retry for space 1
(timer 0) is pending, the host order already matches, and a fresh
reconciliation request for space 1 completes without touching the pending
retry — it is neither cancelled nor replaced. -/
def c6State : EngState :=
  ⟨[⟨1, [5], [7], Option.none⟩], [⟨5, false, 1⟩, ⟨7, false, 1⟩],
   ⟨1, [0], [(1, ⟨0, 3⟩)]⟩⟩

/-- Space-model part of `moveTabToPinned` (part_002:1570-1574): remove the
tab from `temporaryTabs`, then append it to `spaceBookmarks` unless
already present. (The bookmark-folder side effects do not touch the two
arrays.) -/
def moveTabToPinned (space : Space) (tabId : Nat) : Space :=
  let sp := { space with temporaryTabs := space.temporaryTabs.filter (fun id => id ≠ tabId) }
  if sp.spaceBookmarks.contains tabId then sp
  else { sp with spaceBookmarks := sp.spaceBookmarks ++ [tabId] }

/-- Space-model part of `moveTabToTemp` (part_002:1618-1622): remove the
tab from `spaceBookmarks`, then append it to `temporaryTabs` unless
already present. -/
def moveTabToTemp (space : Space) (tabId : Nat) : Space :=
  let sp := { space with spaceBookmarks := space.spaceBookmarks.filter (fun id => id ≠ tabId) }
  if sp.temporaryTabs.contains tabId then sp
  else { sp with temporaryTabs := sp.temporaryTabs ++ [tabId] }

/-- Space-model part of `moveTabToSpace` (part_002:4020-4056): strip the
tab from the source space (first space containing it, when different from
the target), then strip it from both target arrays and append it to the
array selected by `pinned`; an absent target leaves only the source-side
mutation. -/
def moveTabToSpace (spaces : List Space) (tabId spaceId : Nat) (pinned : Bool) : List Space :=
  let spaces1 :=
    match spaces.find? (fun s => s.temporaryTabs.contains tabId
        || s.spaceBookmarks.contains tabId) with
    | some sourceSpace =>
      if sourceSpace.id ≠ spaceId then
        setSpaceFirst spaces
          { sourceSpace with
            temporaryTabs := sourceSpace.temporaryTabs.filter (fun id => id ≠ tabId)
            spaceBookmarks := sourceSpace.spaceBookmarks.filter (fun id => id ≠ tabId)
            lastTab := Option.none }
      else spaces
    | Option.none => spaces
  match spaces1.find? (fun s => s.id == spaceId) with
  | Option.none => spaces1
  | some space =>
    let sp := { space with
      spaceBookmarks := space.spaceBookmarks.filter (fun id => id ≠ tabId)
      temporaryTabs := space.temporaryTabs.filter (fun id => id ≠ tabId)
      lastTab := some tabId }
    let sp2 := if pinned then { sp with spaceBookmarks := sp.spaceBookmarks ++ [tabId] }
               else { sp with temporaryTabs := sp.temporaryTabs ++ [tabId] }
    setSpaceFirst spaces1 sp2

/-- Space-model part of the bookmark-click handler (part_002:3177-3186):
when an already-open tab is found for a clicked bookmark row, record it as
`lastTab` and, when the row is pinned, push the tab id into
`spaceBookmarks` unless already present — without removing it from
`temporaryTabs`. -/
def bookmarkClickUpdate (spaces : List Space) (groupId tabId : Nat)
    (isPinned : Bool) : List Space :=
  match spaces.find? (fun s => s.id == groupId) with
  | Option.none => spaces
  | some space =>
    let sp := { space with lastTab := some tabId }
    let sp2 := if isPinned && !(sp.spaceBookmarks.contains tabId)
               then { sp with spaceBookmarks := sp.spaceBookmarks ++ [tabId] }
               else sp
    setSpaceFirst spaces sp2

/-- The disjointness invariant for one space. -/
def disjointSpace (s : Space) : Prop :=
  ∀ id ∈ s.spaceBookmarks, id ∉ s.temporaryTabs

instance (s : Space) : Decidable (disjointSpace s) := by
  rw [disjointSpace]
  infer_instance

/-- `MAX_ARCHIVED_TABS` (utils.js:18). -/
def MAX_ARCHIVED_TABS : Nat := 100

/-- An archived-tab record (utils.js): `{url, name, spaceId, archivedAt}`. -/
structure ArchivedTab where
  url : String
  name : String
  spaceId : Nat
  archivedAt : Nat
  deriving Repr, DecidableEq

/-- The comparator `(a, b) => b.archivedAt - a.archivedAt` as a relation:
descending by timestamp. -/
def archivedGE (a b : ArchivedTab) : Prop :=
  b.archivedAt ≤ a.archivedAt

instance : DecidableRel archivedGE := fun a b => Nat.decLe b.archivedAt a.archivedAt

instance : IsTotal ArchivedTab archivedGE :=
  ⟨fun a b => Nat.le_total b.archivedAt a.archivedAt⟩

instance : IsTrans ArchivedTab archivedGE :=
  ⟨fun _ _ _ hab hbc => Nat.le_trans hbc hab⟩

/-- JavaScript's stable `Array.prototype.sort` with the descending
timestamp comparator; a stable sort for a total preorder is unique, and
insertion sort realizes it. -/
def sortByArchivedAtDesc (l : List ArchivedTab) : List ArchivedTab :=
  List.insertionSort archivedGE l

/-- `Utils.addArchivedTab` (utils.js:246-272): reject falsy fields, skip
URLs already archived, append the new record stamped `now`, sort newest
first, and truncate to the cap (`splice(MAX_ARCHIVED_TABS)`). -/
def addArchivedTab (archivedTabs : List ArchivedTab) (url name : String)
    (spaceId now : Nat) : List ArchivedTab :=
  if url = "" ∨ name = "" ∨ spaceId = 0 then archivedTabs
  else if archivedTabs.any (fun t => t.url == url) then archivedTabs
  else
    ((sortByArchivedAtDesc
      (archivedTabs ++ [⟨url, name, spaceId, now⟩])).take MAX_ARCHIVED_TABS)

/-- A bookmark-tree node: a bookmark (`url` present) or a folder. -/
inductive BNode where
  | bm (id : Nat) (title : String) (url : String)
  | fold (id : Nat) (title : String) (dateAdded : Nat) (children : List BNode)

/-- Node identifier. -/
def BNode.nodeId : BNode → Nat
  | BNode.bm i _ _ => i
  | BNode.fold i _ _ _ => i

/-- Node title. -/
def BNode.title : BNode → String
  | BNode.bm _ t _ => t
  | BNode.fold _ t _ _ => t

/-- Whether the node is a folder (`!item.url`). -/
def BNode.isFolder : BNode → Bool
  | BNode.bm _ _ _ => false
  | BNode.fold _ _ _ _ => true

/-- Folder creation time (`dateAdded`; 0 for bookmarks, unused). -/
def BNode.dateAdded : BNode → Nat
  | BNode.bm _ _ _ => 0
  | BNode.fold _ _ d _ => d

/-- The sort comparator `(a, b) => a.dateAdded - b.dateAdded`:
ascending creation time. -/
def dateLE (a b : BNode) : Prop :=
  a.dateAdded ≤ b.dateAdded

instance : DecidableRel dateLE := fun a b => Nat.decLe a.dateAdded b.dateAdded

instance : IsTotal BNode dateLE := ⟨fun a b => Nat.le_total a.dateAdded b.dateAdded⟩

instance : IsTrans BNode dateLE := ⟨fun _ _ _ => Nat.le_trans⟩

/-- `targetChildren.some(targetItem => targetItem.url === sourceItem.url)`:
does the snapshot hold a bookmark with this URL? -/
def bookmarkUrlIn (snap : List BNode) (u : String) : Bool :=
  snap.any (fun n => match n with
    | BNode.bm _ _ u' => u' == u
    | BNode.fold _ _ _ _ => false)

/-- `targetChildren.find(t => !t.url && t.title === title)`: first folder of
the snapshot with this title. -/
def findFolderByTitle (snap : List BNode) (t : String) : Option BNode :=
  snap.find? (fun n => match n with
    | BNode.fold _ t' _ _ => t' == t
    | BNode.bm _ _ _ => false)

/-- Locate a top-level folder by id. -/
def findFolderById (children : List BNode) (i : Nat) : Option BNode :=
  children.find? (fun n => n.isFolder && n.nodeId == i)

mutual

/-- One iteration of the `for (const sourceItem of sourceChildren)` loop of
`LocalStorage._mergeFolderContentsRecursive` (background.js:958-995):
`snap` is the target-children snapshot read at the start of the call,
`tgt` the target's current children. A bookmark whose URL exists in the
snapshot is discarded; a new-URL bookmark is moved (appended); a folder
whose title exists in the snapshot is merged recursively into that
(live) folder and dropped; a unique-title folder is moved wholesale. -/
def applyMergeItem (snap tgt : List BNode) : BNode → List BNode
  | BNode.bm i t u =>
    if bookmarkUrlIn snap u then tgt
    else tgt ++ [BNode.bm i t u]
  | BNode.fold i t d ch =>
    match findFolderByTitle snap t with
    | some (BNode.fold ti _ _ _) =>
      tgt.map (fun n => match n with
        | BNode.fold i' t' d' ch' =>
          if i' == ti then BNode.fold i' t' d' (mergeGo ch' ch' ch)
          else BNode.fold i' t' d' ch'
        | BNode.bm i' t' u' => BNode.bm i' t' u')
    | _ => tgt ++ [BNode.fold i t d ch]
termination_by item => sizeOf item

/-- The loop of `_mergeFolderContentsRecursive` over the source children. -/
def mergeGo (snap tgt : List BNode) : List BNode → List BNode
  | [] => tgt
  | item :: rest => mergeGo snap (applyMergeItem snap tgt item) rest
termination_by src => sizeOf src

end

/-- `LocalStorage._mergeFolderContentsRecursive(sourceId, targetId)`:
given the source folder's children and the target folder's children,
returns the target's new children; every source child is consumed
(moved or removed). -/
def mergeFolderContentsRecursive (srcChildren tgtChildren : List BNode) : List BNode :=
  mergeGo tgtChildren tgtChildren srcChildren

/-- Update one node: a folder with the target id has the source children
merged into its own; every other node is unchanged. -/
def mergeUpdateNode (tgtId : Nat) (srcCh : List BNode) (n : BNode) : BNode :=
  match n with
  | BNode.fold i t d ch =>
    if i == tgtId then BNode.fold i t d (mergeFolderContentsRecursive srcCh ch)
    else BNode.fold i t d ch
  | BNode.bm i t u => BNode.bm i t u

/-- One top-level merge of a duplicate source folder into the kept target
(background.js:1030-1046): recursively merge the source's children into
the target, then remove the (now empty) source folder. -/
def mergeOneInto (children : List BNode) (tgtId srcId : Nat) : List BNode :=
  match findFolderById children srcId with
  | some (BNode.fold _ _ _ srcCh) =>
    (children.map (mergeUpdateNode tgtId srcCh)).filter (fun n => n.nodeId ≠ srcId)
  | _ => children

/-- Root-level folders with a given title (one group of
`folderGroups`). -/
def foldersTitled (children : List BNode) (t : String) : List BNode :=
  children.filter (fun n => n.isFolder && n.title == t)

/-- The group sorted by `dateAdded` (stable ascending); its head is the
kept target, its tail the merged-away sources. -/
def groupSortOf (orig : List BNode) (t : String) : List BNode :=
  List.insertionSort dateLE (foldersTitled orig t)

/-- First-occurrence dedup of a string list (`folderGroups` key order). -/
def dedupStrGo (seen : List String) : List String → List String
  | [] => []
  | t :: rest =>
    if t ∈ seen then dedupStrGo seen rest
    else t :: dedupStrGo (t :: seen) rest

/-- The distinct folder titles in encounter order. -/
def dedupStrings (l : List String) : List String :=
  dedupStrGo [] l

/-- Process one title group of `mergeDuplicateSpaceFolders`
(background.js:1021-1049): groups of size ≤ 1 are skipped; otherwise the
oldest folder is kept and each other folder is merged into it and then
deleted. The group is computed from the original root children (the
`folderGroups` map is built up front). -/
def mergeGroupStep (orig : List BNode) (acc : List BNode) (t : String) : List BNode :=
  if (foldersTitled orig t).length ≤ 1 then acc
  else
    match groupSortOf orig t with
    | [] => acc
    | target :: sources =>
      sources.foldl (fun acc2 src => mergeOneInto acc2 target.nodeId src.nodeId) acc

/-- `LocalStorage.mergeDuplicateSpaceFolders` (background.js:998-1056) on
the root container's children. -/
def mergeDuplicateSpaceFolders (rootChildren : List BNode) : List BNode :=
  (dedupStrings ((rootChildren.filter (fun n => n.isFolder)).map BNode.title)).foldl
    (mergeGroupStep rootChildren) rootChildren

/-- No top-level node carries this id. -/
def noId (x : Nat) (l : List BNode) : Prop :=
  ∀ n ∈ l, n.nodeId ≠ x

/-- Some top-level node has this node's id, title, kind and creation time. -/
def hasRep (m : BNode) (l : List BNode) : Prop :=
  ∃ n, n ∈ l ∧ n.nodeId = m.nodeId ∧ n.title = m.title
    ∧ n.isFolder = m.isFolder ∧ n.dateAdded = m.dateAdded

/-- A URL in parsed form: origin, pathname, and the query+fragment rest. -/
structure Url where
  origin : String
  path : String
  queryFrag : String
  deriving Repr, DecidableEq

/-- `Utils.getPinnedUrlKey` (utils.js:67-76): origin + pathname, ignoring
query parameters and hash. -/
def getPinnedUrlKey (u : Url) : String :=
  u.origin ++ u.path

/-- An open host tab as the matcher sees it. -/
structure OTab where
  id : Nat
  url : Url
  deriving Repr, DecidableEq

/-- A bookmark entry of the space folder. -/
structure BookmarkEntry where
  id : Nat
  url : Url
  deriving Repr, DecidableEq

/-- Modelled from the spec: `BookmarkUtils.findTabByUrl` lives in
bookmark-utils.js, which is not part of the repository snapshot; per the
spec's tier 2, it returns the first tab "whose current URL exactly equals
the bookmark's URL". -/
def findTabByUrl (tabs : List OTab) (u : Url) : Option OTab :=
  tabs.find? (fun t => decide (t.url = u))

/-- The three-tier match of `processBookmarkNode` (part_002:2679-2690):
(1) a tab whose stored pinned state references this bookmark id,
(2) a tab whose URL exactly equals the bookmark's URL,
(3) a tab with the same origin+path key that is not already representing
another bookmark — combined with JavaScript `||`. Only tier 3 checks
`representedPinnedTabIds`. -/
def resolveBookmarkTab (tabs : List OTab) (pinnedStates : List (Nat × Nat))
    (represented : List Nat) (b : BookmarkEntry) : Option OTab :=
  let byBookmarkId := tabs.find? (fun t => pinnedStates.lookup t.id == some b.id)
  let byExactUrl := findTabByUrl tabs b.url
  let byBaseUrl := tabs.find? (fun t =>
    decide (t.id ≠ 0) && !(represented.contains t.id)
      && decide (getPinnedUrlKey t.url = getPinnedUrlKey b.url))
  (byBookmarkId.orElse (fun _ => byExactUrl)).orElse (fun _ => byBaseUrl)

/-- The bookmark loop of `processBookmarkNode`: skip URLs already
processed or open as host-pinned tabs; otherwise resolve a representing
tab, record its id in `representedPinnedTabIds`, and mark the URL
processed (in both branches). -/
def processBookmarks (tabs : List OTab) (pinnedStates : List (Nat × Nat))
    (pinnedUrls : List Url) :
    List BookmarkEntry → List Url → List Nat → List (BookmarkEntry × Option OTab)
  | [], _, _ => []
  | b :: rest, processedUrls, represented =>
    if b.url ∈ processedUrls ∨ b.url ∈ pinnedUrls then
      processBookmarks tabs pinnedStates pinnedUrls rest processedUrls represented
    else
      match resolveBookmarkTab tabs pinnedStates represented b with
      | some tab =>
        (b, some tab) :: processBookmarks tabs pinnedStates pinnedUrls rest
          (b.url :: processedUrls) (represented ++ [tab.id])
      | Option.none =>
        (b, Option.none) :: processBookmarks tabs pinnedStates pinnedUrls rest
          (b.url :: processedUrls) represented

/-- Resolution of a whole space folder's bookmarks on load. -/
def loadMatches (tabs : List OTab) (pinnedStates : List (Nat × Nat))
    (pinnedUrls : List Url) (bookmarks : List BookmarkEntry) :
    List (BookmarkEntry × Option OTab) :=
  processBookmarks tabs pinnedStates pinnedUrls bookmarks [] []

/-! ## Theorems -/

theorem mem_uniqGo {a : Nat} : ∀ {seen l : List Nat},
    a ∈ uniqGo seen l ↔ a ∈ l ∧ a ≠ 0 ∧ a ∉ seen := by
  intro seen l
  induction l generalizing seen with
  | nil => simp [uniqGo]
  | cons id rest ih =>
    by_cases h0 : id = 0
    · subst h0
      rw [show uniqGo seen (0 :: rest) = uniqGo seen rest by simp [uniqGo]]
      rw [ih]
      constructor
      · rintro ⟨h1, h2, h3⟩
        exact ⟨List.mem_cons_of_mem _ h1, h2, h3⟩
      · rintro ⟨h1, h2, h3⟩
        rcases List.mem_cons.mp h1 with h | h
        · exact absurd h h2
        · exact ⟨h, h2, h3⟩
    · by_cases hseen : id ∈ seen
      · rw [show uniqGo seen (id :: rest) = uniqGo seen rest by simp [uniqGo, h0, hseen]]
        rw [ih]
        constructor
        · rintro ⟨h1, h2, h3⟩
          exact ⟨List.mem_cons_of_mem _ h1, h2, h3⟩
        · rintro ⟨h1, h2, h3⟩
          rcases List.mem_cons.mp h1 with h | h
          · subst h; exact absurd hseen h3
          · exact ⟨h, h2, h3⟩
      · rw [show uniqGo seen (id :: rest) = id :: uniqGo (id :: seen) rest by
          simp [uniqGo, h0, hseen]]
        simp only [List.mem_cons]
        rw [ih]
        constructor
        · rintro (h | ⟨h1, h2, h3⟩)
          · subst h
            exact ⟨Or.inl rfl, h0, hseen⟩
          · refine ⟨Or.inr h1, h2, fun hc => h3 (List.mem_cons_of_mem _ hc)⟩
        · rintro ⟨h1, h2, h3⟩
          rcases h1 with h | h
          · exact Or.inl h
          · by_cases heq : a = id
            · exact Or.inl heq
            · exact Or.inr ⟨h, h2, fun hc => by
                rcases List.mem_cons.mp hc with hh | hh
                · exact heq hh
                · exact h3 hh⟩

theorem mem_uniqPreserveOrder {a : Nat} {l : List Nat} :
    a ∈ uniqPreserveOrder l ↔ a ∈ l ∧ a ≠ 0 := by
  rw [uniqPreserveOrder, mem_uniqGo]
  simp

theorem nodup_uniqGo : ∀ {seen l : List Nat}, (uniqGo seen l).Nodup := by
  intro seen l
  induction l generalizing seen with
  | nil => simp [uniqGo]
  | cons id rest ih =>
    by_cases h0 : id = 0
    · simpa [uniqGo, h0] using ih
    · by_cases hseen : id ∈ seen
      · simpa [uniqGo, h0, hseen] using ih
      · simp only [uniqGo, if_neg h0, if_neg hseen]
        refine List.nodup_cons.mpr ⟨fun hc => ?_, ih⟩
        exact (mem_uniqGo.mp hc).2.2 (List.mem_cons_self _ _)

theorem nodup_uniqPreserveOrder {l : List Nat} : (uniqPreserveOrder l).Nodup :=
  nodup_uniqGo

theorem uniqGo_eq_dedupGo : ∀ {seen l : List Nat}, (∀ x ∈ l, x ≠ 0) →
    uniqGo seen l = dedupGo seen l := by
  intro seen l
  induction l generalizing seen with
  | nil => intro _; rfl
  | cons id rest ih =>
    intro h
    have h0 : id ≠ 0 := h id (List.mem_cons_self _ _)
    have hrest : ∀ x ∈ rest, x ≠ 0 := fun x hx => h x (List.mem_cons_of_mem _ hx)
    by_cases hseen : id ∈ seen
    · simp only [uniqGo, dedupGo, if_neg h0, if_pos hseen]
      exact ih hrest
    · simp only [uniqGo, dedupGo, if_neg h0, if_neg hseen]
      rw [ih hrest]

theorem uniqPreserveOrder_eq_dedup {l : List Nat} (h : ∀ x ∈ l, x ≠ 0) :
    uniqPreserveOrder l = dedupFirstOccurrence l :=
  uniqGo_eq_dedupGo h

theorem uniqGo_eq_self : ∀ {seen l : List Nat}, (∀ x ∈ l, x ≠ 0) → l.Nodup →
    (∀ x ∈ l, x ∉ seen) → uniqGo seen l = l := by
  intro seen l
  induction l generalizing seen with
  | nil => intro _ _ _; rfl
  | cons id rest ih =>
    intro h hnd hs
    have h0 : id ≠ 0 := h id (List.mem_cons_self _ _)
    have hseen : id ∉ seen := hs id (List.mem_cons_self _ _)
    simp only [uniqGo, if_neg h0, if_neg hseen]
    have hnd' := List.nodup_cons.mp hnd
    rw [ih (fun x hx => h x (List.mem_cons_of_mem _ hx)) hnd'.2]
    intro x hx
    intro hc
    rcases List.mem_cons.mp hc with hh | hh
    · exact hnd'.1 (hh ▸ hx)
    · exact hs x (List.mem_cons_of_mem _ hx) hh

theorem uniqPreserveOrder_eq_self {l : List Nat} (h : ∀ x ∈ l, x ≠ 0)
    (hnd : l.Nodup) : uniqPreserveOrder l = l :=
  uniqGo_eq_self h hnd (by simp)

theorem find?_id_of_mem {l : List HTab} (hnd : (l.map HTab.id).Nodup) {t : HTab}
    (ht : t ∈ l) : l.find? (fun u => u.id == t.id) = some t := by
  induction l with
  | nil => simp at ht
  | cons u rest ih =>
    rw [List.map_cons] at hnd
    have hnd' := List.nodup_cons.mp hnd
    rcases List.mem_cons.mp ht with h | h
    · subst h
      simp [List.find?_cons]
    · have hne : u.id ≠ t.id := by
        intro he
        exact hnd'.1 (he ▸ List.mem_map_of_mem HTab.id h)
      rw [List.find?_cons_of_neg]
      · exact ih hnd'.2 h
      · simp [hne]

theorem hostGroupOrderList_eq (host : List HTab) (g : Nat) :
    hostGroupOrderList host g
      = (host.filter (fun t => !t.pinned && t.groupId == g)).map (fun t => t.id) := by
  rw [hostGroupOrderList, hostGroupUnpinned, queryGroup, List.filter_filter]

theorem mem_hostGroupOrderList {host : List HTab} {g i : Nat} :
    i ∈ hostGroupOrderList host g
      ↔ ∃ t, t ∈ host ∧ t.id = i ∧ t.groupId = g ∧ t.pinned = false := by
  rw [hostGroupOrderList_eq]
  simp only [List.mem_map, List.mem_filter]
  constructor
  · rintro ⟨t, ⟨htm, hp⟩, hid⟩
    refine ⟨t, htm, hid, ?_, ?_⟩
    · have := (Bool.and_eq_true _ _).mp hp
      exact eq_of_beq this.2
    · have := (Bool.and_eq_true _ _).mp hp
      simpa using this.1
  · rintro ⟨t, htm, hid, hg, hpin⟩
    exact ⟨t, ⟨htm, by simp [hg, hpin]⟩, hid⟩

/-- After the host's batched move of `ids`, the group's unpinned order is
exactly `ids`, provided every listed id names an unpinned tab of the
group and every unpinned tab of the group is listed. -/
theorem hostGroupOrderList_moveTabs
    (host : List HTab) (g : Nat) (ids : List Nat) (idx : Nat)
    (hnd : (host.map HTab.id).Nodup)
    (hmem : ∀ i ∈ ids, ∃ t, t ∈ host ∧ t.id = i ∧ t.groupId = g ∧ t.pinned = false)
    (hcover : ∀ t ∈ host, t.groupId = g → t.pinned = false → t.id ∈ ids) :
    hostGroupOrderList (moveTabs host ids idx) g = ids := by
  have moved_spec : ∀ (js : List Nat),
      (∀ i ∈ js, ∃ t, t ∈ host ∧ t.id = i ∧ t.groupId = g ∧ t.pinned = false) →
      (js.filterMap (fun i => host.find? (fun t => t.id == i))).map (fun t => t.id) = js
      ∧ ∀ t ∈ js.filterMap (fun i => host.find? (fun t => t.id == i)),
          t.groupId = g ∧ t.pinned = false := by
    intro js
    induction js with
    | nil => intro _; simp
    | cons i rest ih =>
      intro h
      obtain ⟨t, htm, hid, hg, hpin⟩ := h i (List.mem_cons_self _ _)
      have hfind : host.find? (fun u => u.id == i) = some t := by
        rw [← hid]
        exact find?_id_of_mem hnd htm
      have ih' := ih (fun j hj => h j (List.mem_cons_of_mem _ hj))
      rw [List.filterMap_cons, hfind]
      constructor
      · rw [List.map_cons, hid, ih'.1]
      · intro u hu
        rcases List.mem_cons.mp hu with h | h
        · subst h; exact ⟨hg, hpin⟩
        · exact ih'.2 u h
  have hmv := moved_spec ids hmem
  set moved := ids.filterMap (fun i => host.find? (fun t => t.id == i)) with hmoved
  set rest := host.filter (fun t => !(ids.contains t.id)) with hrest
  have hrest_no : ∀ t ∈ rest, ¬(!t.pinned && t.groupId == g) = true := by
    intro t htm hP
    have hm := List.mem_filter.mp htm
    have hgp := (Bool.and_eq_true _ _).mp hP
    have hgrp : t.groupId = g := eq_of_beq hgp.2
    have hpin : t.pinned = false := by simpa using hgp.1
    have hin : t.id ∈ ids := hcover t hm.1 hgrp hpin
    have hfalse : (ids.contains t.id) = false := by simpa using hm.2
    have htrue : (ids.contains t.id) = true := by simpa using hin
    rw [htrue] at hfalse
    exact Bool.noConfusion hfalse
  have hmove : moveTabs host ids idx = rest.take idx ++ moved ++ rest.drop idx := by
    rw [moveTabs]
  rw [hmove, hostGroupOrderList_eq]
  rw [List.filter_append, List.filter_append, List.map_append, List.map_append]
  have htake : (rest.take idx).filter (fun t => !t.pinned && t.groupId == g) = [] := by
    apply List.filter_eq_nil_iff.mpr
    intro t htm
    exact hrest_no t (List.mem_of_mem_take htm)
  have hdrop : (rest.drop idx).filter (fun t => !t.pinned && t.groupId == g) = [] := by
    apply List.filter_eq_nil_iff.mpr
    intro t htm
    exact hrest_no t (List.mem_of_mem_drop htm)
  have hmovedf : moved.filter (fun t => !t.pinned && t.groupId == g) = moved := by
    apply List.filter_eq_self.mpr
    intro t htm
    have := hmv.2 t htm
    simp [this.1, this.2]
  rw [htake, hdrop, hmovedf, hmv.1]
  simp

theorem find?_space_id {spaces : List Space} {spaceId : Nat} {space : Space}
    (h : spaces.find? (fun s => s.id == spaceId) = some space) : space.id = spaceId := by
  have := List.find?_some h
  exact eq_of_beq this

theorem setSpaceFirst_self {spaces : List Space} {spaceId : Nat} {space : Space}
    (h : spaces.find? (fun s => s.id == spaceId) = some space) :
    setSpaceFirst spaces space = spaces := by
  induction spaces with
  | nil => simp at h
  | cons s rest ih =>
    have hid : space.id = spaceId := find?_space_id h
    by_cases he : s.id = spaceId
    · have : s = space := by
        rw [List.find?_cons_of_pos] at h
        · exact Option.some.inj h
        · simp [he]
      rw [setSpaceFirst, if_pos (by rw [this])]
      rw [this]
    · rw [List.find?_cons_of_neg] at h
      · rw [setSpaceFirst, if_neg (by rw [hid]; exact he), ih h]
      · simp [he]

theorem reconcile_eq_core {st : EngState} {spaceId : Nat} {opts : Opts}
    {outcome : MoveOutcome} {space : Space} (h0 : spaceId ≠ 0)
    (hfind : st.spaces.find? (fun s => s.id == spaceId) = some space)
    (hne : hostGroupUnpinned st.host spaceId ≠ []) :
    reconcileSpaceTabOrdering st spaceId opts outcome
      = reconcileCore st spaceId opts outcome space := by
  rw [reconcileSpaceTabOrdering, if_neg h0, hfind]
  simp [List.isEmpty_iff, hne]

theorem reconcile_noop_of_none {st : EngState} {spaceId : Nat} {opts : Opts}
    {outcome : MoveOutcome}
    (hfind : st.spaces.find? (fun s => s.id == spaceId) = Option.none) :
    reconcileSpaceTabOrdering st spaceId opts outcome = (st, Effect.none) := by
  rw [reconcileSpaceTabOrdering]
  by_cases h0 : spaceId = 0
  · rw [if_pos h0]
  · rw [if_neg h0, hfind]

theorem reconcile_noop_of_empty {st : EngState} {spaceId : Nat} {opts : Opts}
    {outcome : MoveOutcome}
    (hempty : hostGroupUnpinned st.host spaceId = []) :
    reconcileSpaceTabOrdering st spaceId opts outcome = (st, Effect.none) := by
  rw [reconcileSpaceTabOrdering]
  by_cases h0 : spaceId = 0
  · rw [if_pos h0]
  · rw [if_neg h0]
    cases hfind : st.spaces.find? (fun s => s.id == spaceId) with
    | none => rfl
    | some space => simp [List.isEmpty_iff, hempty]

theorem mem_desiredBookmarksOf {space : Space} {tig : List Nat} {i : Nat} :
    i ∈ desiredBookmarksOf space tig
      ↔ i ∈ space.spaceBookmarks ∧ i ∈ tig ∧ i ≠ 0 := by
  rw [desiredBookmarksOf, mem_uniqPreserveOrder]
  simp only [List.mem_filter]
  constructor
  · rintro ⟨⟨h1, h2⟩, h3⟩
    exact ⟨h1, by simpa using h2, h3⟩
  · rintro ⟨h1, h2, h3⟩
    exact ⟨⟨h1, by simpa using h2⟩, h3⟩

theorem mem_desiredTempsOf {space : Space} {tig : List Nat} {i : Nat} :
    i ∈ desiredTempsOf space tig
      ↔ i ∈ space.temporaryTabs ∧ i ∈ tig ∧ i ∉ desiredBookmarksOf space tig ∧ i ≠ 0 := by
  rw [desiredTempsOf, mem_uniqPreserveOrder]
  simp only [List.mem_filter, Bool.and_eq_true]
  constructor
  · rintro ⟨⟨h1, h2, h4⟩, h3⟩
    refine ⟨h1, by simpa using h2, ?_, h3⟩
    simpa using h4
  · rintro ⟨h1, h2, h4, h3⟩
    exact ⟨⟨h1, by simpa using h2, by simpa using h4⟩, h3⟩

theorem mem_desiredOrderOf {space : Space} {tig : List Nat} {i : Nat} :
    i ∈ desiredOrderOf space tig
      ↔ (i ∈ desiredBookmarksOf space tig ∨ i ∈ desiredTempsOf space tig) := by
  rw [desiredOrderOf, mem_uniqPreserveOrder, List.mem_append]
  constructor
  · rintro ⟨h, _⟩; exact h
  · intro h
    refine ⟨h, ?_⟩
    rcases h with h | h
    · exact (mem_desiredBookmarksOf.mp h).2.2
    · exact (mem_desiredTempsOf.mp h).2.2.2

/-- Under the tracking hypotheses, the desired order and the current group
order contain the same ids. -/
theorem mem_desired_iff_current {space : Space} {tig : List Nat}
    (hz : ∀ i ∈ tig, i ≠ 0)
    (htrack : ∀ i ∈ tig, i ∈ space.spaceBookmarks ∨ i ∈ space.temporaryTabs) :
    ∀ i, i ∈ desiredOrderOf space tig ↔ i ∈ tig := by
  intro i
  rw [mem_desiredOrderOf]
  constructor
  · rintro (h | h)
    · exact (mem_desiredBookmarksOf.mp h).2.1
    · exact (mem_desiredTempsOf.mp h).2.1
  · intro h
    have h0 := hz i h
    rcases htrack i h with hb | ht
    · exact Or.inl (mem_desiredBookmarksOf.mpr ⟨hb, h, h0⟩)
    · by_cases hdb : i ∈ desiredBookmarksOf space tig
      · exact Or.inl hdb
      · exact Or.inr (mem_desiredTempsOf.mpr ⟨ht, h, hdb, h0⟩)

theorem desiredOrderOf_congr {space : Space} {tig tig' : List Nat}
    (hset : ∀ i, i ∈ tig ↔ i ∈ tig') :
    desiredOrderOf space tig = desiredOrderOf space tig' := by
  have hcont : ∀ i : Nat, tig.contains i = tig'.contains i := by
    intro i
    by_cases h : i ∈ tig
    · have h' := (hset i).mp h
      simp [h, h']
    · have h' : i ∉ tig' := fun hc => h ((hset i).mpr hc)
      simp [h, h']
  have hb : desiredBookmarksOf space tig = desiredBookmarksOf space tig' := by
    rw [desiredBookmarksOf, desiredBookmarksOf, List.filter_congr]
    intro a _
    exact hcont a
  rw [desiredOrderOf, desiredOrderOf, hb, desiredTempsOf, desiredTempsOf, hb,
    List.filter_congr]
  intro a _
  rw [hcont a]

theorem desiredOrderOf_nil {space : Space} : desiredOrderOf space [] = [] := by
  simp [desiredOrderOf, desiredBookmarksOf, desiredTempsOf, uniqPreserveOrder, uniqGo]

/-- After `reconcileCore` with a successful move outcome, the group's
unpinned host order equals the computed desired order. -/
theorem reconcileCore_success_hostOrder
    {st : EngState} {spaceId : Nat} {opts : Opts} {space : Space}
    (hnd : (st.host.map HTab.id).Nodup)
    (hz : ∀ i ∈ hostGroupOrderList st.host spaceId, i ≠ 0)
    (htrack : ∀ i ∈ hostGroupOrderList st.host spaceId,
        i ∈ (spaceAfterSource space (hostGroupOrderList st.host spaceId) opts).spaceBookmarks
        ∨ i ∈ (spaceAfterSource space (hostGroupOrderList st.host spaceId) opts).temporaryTabs) :
    hostGroupOrderList (reconcileCore st spaceId opts MoveOutcome.success space).1.host spaceId
      = desiredOrderOf (spaceAfterSource space (hostGroupOrderList st.host spaceId) opts)
          (hostGroupOrderList st.host spaceId) := by
  by_cases hsame : hostGroupOrderList st.host spaceId
      = desiredOrderOf (spaceAfterSource space (hostGroupOrderList st.host spaceId) opts)
          (hostGroupOrderList st.host spaceId)
  · have hhost : (reconcileCore st spaceId opts MoveOutcome.success space).1.host = st.host := by
      simp only [reconcileCore]
      rw [if_pos hsame]
    rw [hhost]
    exact hsame
  · have hhost : (reconcileCore st spaceId opts MoveOutcome.success space).1.host
        = moveTabs st.host
            (desiredOrderOf (spaceAfterSource space (hostGroupOrderList st.host spaceId) opts)
              (hostGroupOrderList st.host spaceId))
            (st.host.findIdx (fun t => t.id == (hostGroupOrderList st.host spaceId).headD 0)) := by
      simp only [reconcileCore]
      rw [if_neg hsame]
    rw [hhost]
    apply hostGroupOrderList_moveTabs
    · exact hnd
    · intro i hi
      have hitig : i ∈ hostGroupOrderList st.host spaceId :=
        (mem_desired_iff_current hz htrack i).mp hi
      exact mem_hostGroupOrderList.mp hitig
    · intro t htm hg hpin
      have hitig : t.id ∈ hostGroupOrderList st.host spaceId :=
        mem_hostGroupOrderList.mpr ⟨t, htm, rfl, hg, hpin⟩
      exact (mem_desired_iff_current hz htrack t.id).mpr hitig

/-- After a successful `reconcileSpaceTabOrdering`, the group's unpinned
host order equals the desired order computed by the engine, whenever every
unpinned tab of the group is tracked by the (source-adjusted) space record. -/
theorem reconcile_success_hostOrder
    {st : EngState} {spaceId : Nat} {opts : Opts} {space : Space}
    (h0 : spaceId ≠ 0)
    (hfind : st.spaces.find? (fun s => s.id == spaceId) = some space)
    (hnd : (st.host.map HTab.id).Nodup)
    (hz : ∀ i ∈ hostGroupOrderList st.host spaceId, i ≠ 0)
    (htrack : ∀ i ∈ hostGroupOrderList st.host spaceId,
        i ∈ (spaceAfterSource space (hostGroupOrderList st.host spaceId) opts).spaceBookmarks
        ∨ i ∈ (spaceAfterSource space (hostGroupOrderList st.host spaceId) opts).temporaryTabs) :
    hostGroupOrder (reconcileSpaceTabOrdering st spaceId opts MoveOutcome.success).1 spaceId
      = desiredOrderOf (spaceAfterSource space (hostGroupOrderList st.host spaceId) opts)
          (hostGroupOrderList st.host spaceId) := by
  by_cases hne : hostGroupUnpinned st.host spaceId = []
  · rw [reconcile_noop_of_empty hne]
    have htignil : hostGroupOrderList st.host spaceId = [] := by
      rw [hostGroupOrderList, hne]; rfl
    rw [hostGroupOrder, htignil, desiredOrderOf_nil]
  · rw [reconcile_eq_core h0 hfind hne, hostGroupOrder]
    exact reconcileCore_success_hostOrder hnd hz htrack

theorem desiredBookmarksOf_eq_dedup {space : Space} {tig : List Nat}
    (hz : ∀ i ∈ tig, i ≠ 0) :
    desiredBookmarksOf space tig
      = dedupFirstOccurrence (space.spaceBookmarks.filter (fun id => tig.contains id)) := by
  rw [desiredBookmarksOf]
  apply uniqPreserveOrder_eq_dedup
  intro x hx
  have := List.mem_filter.mp hx
  exact hz x (by simpa using this.2)

theorem desiredTempsOf_eq_dedup {space : Space} {tig : List Nat}
    (hz : ∀ i ∈ tig, i ≠ 0)
    (hdisj : ∀ i ∈ space.temporaryTabs, i ∉ space.spaceBookmarks) :
    desiredTempsOf space tig
      = dedupFirstOccurrence (space.temporaryTabs.filter (fun id => tig.contains id)) := by
  rw [desiredTempsOf]
  have hcongr : space.temporaryTabs.filter
      (fun id => tig.contains id && !((desiredBookmarksOf space tig).contains id))
      = space.temporaryTabs.filter (fun id => tig.contains id) := by
    apply List.filter_congr
    intro a ha
    have hnb : a ∉ desiredBookmarksOf space tig := by
      intro hc
      exact hdisj a ha (mem_desiredBookmarksOf.mp hc).1
    have : ((desiredBookmarksOf space tig).contains a) = false := by simpa using hnb
    rw [this]
    simp
  rw [hcongr]
  apply uniqPreserveOrder_eq_dedup
  intro x hx
  have := List.mem_filter.mp hx
  exact hz x (by simpa using this.2)

theorem desiredOrderOf_eq_append {space : Space} {tig : List Nat} :
    desiredOrderOf space tig = desiredBookmarksOf space tig ++ desiredTempsOf space tig := by
  rw [desiredOrderOf]
  apply uniqPreserveOrder_eq_self
  · intro x hx
    rcases List.mem_append.mp hx with h | h
    · exact (mem_desiredBookmarksOf.mp h).2.2
    · exact (mem_desiredTempsOf.mp h).2.2.2
  · rw [List.nodup_append]
    refine ⟨nodup_uniqPreserveOrder, nodup_uniqPreserveOrder, ?_⟩
    intro a ha hb
    exact (mem_desiredTempsOf.mp hb).2.2.1 ha

/-- The desired order, written the way the spec words it: bookmarks
filtered to present ids, then temporaries filtered to present ids, both
first-occurrence deduplicated. Needs the space's two arrays disjoint. -/
theorem desiredOrderOf_eq_claimConcat {space : Space} {tig : List Nat}
    (hz : ∀ i ∈ tig, i ≠ 0)
    (hdisj : ∀ i ∈ space.temporaryTabs, i ∉ space.spaceBookmarks) :
    desiredOrderOf space tig
      = dedupFirstOccurrence (space.spaceBookmarks.filter (fun id => tig.contains id))
        ++ dedupFirstOccurrence (space.temporaryTabs.filter (fun id => tig.contains id)) := by
  rw [desiredOrderOf_eq_append, desiredBookmarksOf_eq_dedup hz,
    desiredTempsOf_eq_dedup hz hdisj]

theorem reconcileCore_spaces (st : EngState) (spaceId : Nat) (opts : Opts)
    (outcome : MoveOutcome) (space : Space) :
    (reconcileCore st spaceId opts outcome space).1.spaces
      = setSpaceFirst st.spaces
          (spaceAfterSource space (hostGroupOrderList st.host spaceId) opts) := by
  simp only [reconcileCore]
  split
  · rfl
  · cases outcome with
    | success => rfl
    | failure message => rfl

theorem reconcile_spaces_unchanged {st : EngState} {spaceId : Nat} {opts : Opts}
    {outcome : MoveOutcome} {space : Space}
    (hsrc : opts.source = Source.arcify)
    (hfind : st.spaces.find? (fun s => s.id == spaceId) = some space) :
    (reconcileSpaceTabOrdering st spaceId opts outcome).1.spaces = st.spaces := by
  have hsp1 : spaceAfterSource space (hostGroupOrderList st.host spaceId) opts = space := by
    rw [spaceAfterSource, hsrc]
  by_cases h0 : spaceId = 0
  · rw [reconcileSpaceTabOrdering, if_pos h0]
  · by_cases hne : hostGroupUnpinned st.host spaceId = []
    · rw [reconcile_noop_of_empty hne]
    · rw [reconcile_eq_core h0 hfind hne, reconcileCore_spaces, hsp1]
      exact setSpaceFirst_self hfind

theorem reconcileCore_noMove_of_same {st : EngState} {spaceId : Nat} {opts : Opts}
    {outcome : MoveOutcome} {space : Space}
    (hsame : hostGroupOrderList st.host spaceId
      = desiredOrderOf (spaceAfterSource space (hostGroupOrderList st.host spaceId) opts)
          (hostGroupOrderList st.host spaceId)) :
    (reconcileCore st spaceId opts outcome space).2 = { Effect.none with saved := true } := by
  simp only [reconcileCore]
  rw [if_pos hsame]

/-- C10: if `reconcileSpaceTabOrdering` is called with a space id absent
from the spaces store, or with a space whose host tab-group currently
contains no unpinned tabs, it returns immediately: the engine state
(space records, host order, retry timers) is unchanged and no effect is
produced — no host move, no retry, no persist. -/
theorem c10_reconcile_frame_missing_or_empty (st : EngState) (spaceId : Nat)
    (opts : Opts) (outcome : MoveOutcome)
    (h : getSpace st spaceId = Option.none ∨ hostGroupUnpinned st.host spaceId = []) :
    reconcileSpaceTabOrdering st spaceId opts outcome = (st, Effect.none) := by
  rcases h with h | h
  · rw [getSpace] at h
    exact reconcile_noop_of_none h
  · exact reconcile_noop_of_empty h

/-- Witness for C10 at concrete inputs: a store without space 5, and a
store whose space 3 has a group with only a host-pinned tab. -/
theorem c10_reconcile_frame_missing_or_empty_witness :
    reconcileSpaceTabOrdering ⟨[⟨1, [4], [], Option.none⟩], [⟨4, false, 1⟩], ⟨0, [], []⟩⟩ 5
        Opts.default MoveOutcome.success
      = (⟨[⟨1, [4], [], Option.none⟩], [⟨4, false, 1⟩], ⟨0, [], []⟩⟩, Effect.none)
    ∧ reconcileSpaceTabOrdering ⟨[⟨3, [9], [], Option.none⟩], [⟨9, true, 3⟩], ⟨0, [], []⟩⟩ 3
        Opts.default MoveOutcome.success
      = (⟨[⟨3, [9], [], Option.none⟩], [⟨9, true, 3⟩], ⟨0, [], []⟩⟩, Effect.none) :=
  ⟨c10_reconcile_frame_missing_or_empty _ 5 _ _ (Or.inl (by decide)),
   c10_reconcile_frame_missing_or_empty _ 3 _ _ (Or.inr (by decide))⟩

/-- C1 counterexample: the group has an unpinned tab, the call succeeds
(no error is thrown), yet the host order afterwards is `[10, 20]`, not the
claimed concatenation `[10]` — the untracked tab 20 stays in the group, so
the host order is a strict superset of the claimed order. -/
theorem c1_counterexample :
    hostGroupUnpinned c1State.host 1 ≠ []
    ∧ (reconcileSpaceTabOrdering c1State 1 Opts.default MoveOutcome.success).2.errorThrown
        = Option.none
    ∧ hostGroupOrder (reconcileSpaceTabOrdering c1State 1 Opts.default MoveOutcome.success).1 1
        ≠ dedupFirstOccurrence
            ([10].filter (fun id => (hostGroupOrder c1State 1).contains id))
          ++ dedupFirstOccurrence
            (([] : List Nat).filter (fun id => (hostGroupOrder c1State 1).contains id)) := by
  decide

/-- C1 (amended): for a space whose host group's unpinned tabs are all
tracked in `spaceBookmarks ∪ temporaryTabs` (and whose two arrays are
disjoint), after a successful extension-initiated reconcile the host's
order of the group's non-host-pinned tabs equals `spaceBookmarks` filtered
to present ids followed by `temporaryTabs` filtered to present ids, both
first-occurrence deduplicated; host-level pinned tabs are excluded. -/
theorem c1_reconcile_order_roundtrip
    {st : EngState} {spaceId : Nat} {space : Space} {opts : Opts}
    (hsrc : opts.source = Source.arcify)
    (hfind : st.spaces.find? (fun s => s.id == spaceId) = some space)
    (h0 : spaceId ≠ 0)
    (hnd : (st.host.map HTab.id).Nodup)
    (hz : ∀ i ∈ hostGroupOrder st spaceId, i ≠ 0)
    (htrack : ∀ i ∈ hostGroupOrder st spaceId,
        i ∈ space.spaceBookmarks ∨ i ∈ space.temporaryTabs)
    (hdisj : ∀ i ∈ space.temporaryTabs, i ∉ space.spaceBookmarks) :
    hostGroupOrder (reconcileSpaceTabOrdering st spaceId opts MoveOutcome.success).1 spaceId
      = dedupFirstOccurrence
          (space.spaceBookmarks.filter (fun id => (hostGroupOrder st spaceId).contains id))
        ++ dedupFirstOccurrence
          (space.temporaryTabs.filter (fun id => (hostGroupOrder st spaceId).contains id)) := by
  have hsp1 : spaceAfterSource space (hostGroupOrderList st.host spaceId) opts = space := by
    rw [spaceAfterSource, hsrc]
  rw [hostGroupOrder] at hz htrack
  have htrack' : ∀ i ∈ hostGroupOrderList st.host spaceId,
      i ∈ (spaceAfterSource space (hostGroupOrderList st.host spaceId) opts).spaceBookmarks
      ∨ i ∈ (spaceAfterSource space (hostGroupOrderList st.host spaceId) opts).temporaryTabs := by
    rw [hsp1]; exact htrack
  have h1 := reconcile_success_hostOrder h0 hfind hnd hz htrack'
  rw [hsp1] at h1
  rw [h1, hostGroupOrder]
  exact desiredOrderOf_eq_claimConcat hz hdisj

/-- Witness for C1 (amended) at a concrete input: desired order `[5,6,7,8]`
is installed on the host. -/
theorem c1_reconcile_order_roundtrip_witness :
    hostGroupOrder (reconcileSpaceTabOrdering c1WitnessState 1 Opts.default
        MoveOutcome.success).1 1
      = [5, 6, 7, 8] := by
  have h := @c1_reconcile_order_roundtrip c1WitnessState 1 ⟨1, [5, 6], [7, 8], Option.none⟩
    Opts.default rfl (by decide) (by decide) (by decide) (by decide) (by decide) (by decide)
  rw [h]
  decide

/-- C2 counterexample: two back-to-back reconciles with no intervening
mutation (the second runs on exactly the state the first returned), yet
the second call still issues a host move. -/
theorem c2_counterexample :
    ((reconcileSpaceTabOrdering
        (reconcileSpaceTabOrdering c2State 1 Opts.default MoveOutcome.success).1
        1 Opts.default MoveOutcome.success).2).moveIssued ≠ Option.none := by
  decide

/-- C2 (amended): when every unpinned tab of the space's group is tracked
in `spaceBookmarks ∪ temporaryTabs`, a second extension-initiated
reconcile immediately after a successful one issues no host move call. -/
theorem c2_reconcile_idempotent
    {st : EngState} {spaceId : Nat} {space : Space} {opts : Opts}
    (hsrc : opts.source = Source.arcify)
    (hfind : st.spaces.find? (fun s => s.id == spaceId) = some space)
    (h0 : spaceId ≠ 0)
    (hnd : (st.host.map HTab.id).Nodup)
    (hz : ∀ i ∈ hostGroupOrder st spaceId, i ≠ 0)
    (htrack : ∀ i ∈ hostGroupOrder st spaceId,
        i ∈ space.spaceBookmarks ∨ i ∈ space.temporaryTabs) :
    ((reconcileSpaceTabOrdering
        (reconcileSpaceTabOrdering st spaceId opts MoveOutcome.success).1
        spaceId opts MoveOutcome.success).2).moveIssued = Option.none := by
  have hsp1 : ∀ tig, spaceAfterSource space tig opts = space := by
    intro tig; rw [spaceAfterSource, hsrc]
  rw [hostGroupOrder] at hz htrack
  have htrack' : ∀ i ∈ hostGroupOrderList st.host spaceId,
      i ∈ (spaceAfterSource space (hostGroupOrderList st.host spaceId) opts).spaceBookmarks
      ∨ i ∈ (spaceAfterSource space (hostGroupOrderList st.host spaceId) opts).temporaryTabs := by
    rw [hsp1]; exact htrack
  have h1 := reconcile_success_hostOrder h0 hfind hnd hz htrack'
  rw [hsp1] at h1
  rw [hostGroupOrder] at h1
  have hspaces : (reconcileSpaceTabOrdering st spaceId opts MoveOutcome.success).1.spaces
      = st.spaces := reconcile_spaces_unchanged hsrc hfind
  have hfind' : (reconcileSpaceTabOrdering st spaceId opts MoveOutcome.success).1.spaces.find?
      (fun s => s.id == spaceId) = some space := by
    rw [hspaces]; exact hfind
  by_cases hne : hostGroupUnpinned
      (reconcileSpaceTabOrdering st spaceId opts MoveOutcome.success).1.host spaceId = []
  · rw [reconcile_noop_of_empty hne]
    rfl
  · rw [reconcile_eq_core h0 hfind' hne]
    have hset : ∀ i,
        i ∈ hostGroupOrderList
              (reconcileSpaceTabOrdering st spaceId opts MoveOutcome.success).1.host spaceId
        ↔ i ∈ hostGroupOrderList st.host spaceId := by
      intro i
      rw [h1]
      exact mem_desired_iff_current hz htrack i
    have hsame : hostGroupOrderList
          (reconcileSpaceTabOrdering st spaceId opts MoveOutcome.success).1.host spaceId
        = desiredOrderOf
            (spaceAfterSource space
              (hostGroupOrderList
                (reconcileSpaceTabOrdering st spaceId opts MoveOutcome.success).1.host spaceId)
              opts)
            (hostGroupOrderList
              (reconcileSpaceTabOrdering st spaceId opts MoveOutcome.success).1.host spaceId) := by
      rw [hsp1, desiredOrderOf_congr hset, h1]
    rw [reconcileCore_noMove_of_same hsame]
    rfl

/-- Witness for C2 (amended) at a concrete input. -/
theorem c2_reconcile_idempotent_witness :
    ((reconcileSpaceTabOrdering
        (reconcileSpaceTabOrdering
          ⟨[⟨1, [5, 6], [7, 8], Option.none⟩],
           [⟨9, false, 2⟩, ⟨6, false, 1⟩, ⟨7, false, 1⟩, ⟨5, false, 1⟩, ⟨8, false, 1⟩],
           ⟨0, [], []⟩⟩ 1 Opts.default MoveOutcome.success).1
        1 Opts.default MoveOutcome.success).2).moveIssued = Option.none :=
  @c2_reconcile_idempotent
    ⟨[⟨1, [5, 6], [7, 8], Option.none⟩],
     [⟨9, false, 2⟩, ⟨6, false, 1⟩, ⟨7, false, 1⟩, ⟨5, false, 1⟩, ⟨8, false, 1⟩],
     ⟨0, [], []⟩⟩ 1 ⟨1, [5, 6], [7, 8], Option.none⟩ Opts.default
    rfl (by decide) (by decide) (by decide) (by decide) (by decide)

theorem applyChromeSource_id {space : Space} {co : List Nat} {m : Option Nat} :
    (applyChromeSource space co m).id = space.id := by
  cases m with
  | none => rfl
  | some moved =>
    rw [applyChromeSource]
    dsimp only
    split
    · split
      · split <;> rfl
      · rfl
    · rfl

theorem applyChromeSource_temporaryTabs {space : Space} {co : List Nat} {m : Option Nat} :
    (applyChromeSource space co m).temporaryTabs
      = uniqPreserveOrder (co.filter (fun id => !(space.spaceBookmarks.contains id))) := by
  cases m with
  | none => rfl
  | some moved =>
    rw [applyChromeSource]
    dsimp only
    split
    · split
      · split <;> rfl
      · rfl
    · rfl

theorem applyChromeSource_bookmarks_none {space : Space} {co : List Nat} :
    (applyChromeSource space co Option.none).spaceBookmarks = space.spaceBookmarks := rfl

theorem applyChromeSource_bookmarks_moved {space : Space} {co : List Nat} {moved : Nat}
    {movedIndex firstTempIndex : Nat}
    (hb : space.spaceBookmarks.contains moved = true)
    (hmi : co.findIdx? (fun id => id == moved) = some movedIndex)
    (hfi : co.findIdx? (fun id => !(space.spaceBookmarks.contains id)) = some firstTempIndex)
    (hlt : firstTempIndex < movedIndex) :
    (applyChromeSource space co (some moved)).spaceBookmarks
      = (space.spaceBookmarks.filter (fun id => id ≠ moved)) ++ [moved] := by
  rw [applyChromeSource]
  dsimp only
  rw [if_pos hb, hmi, hfi]
  dsimp only
  rw [if_pos hlt]

theorem find?_setSpaceFirst {spaces : List Space} {spaceId : Nat} {space sp : Space}
    (hfind : spaces.find? (fun s => s.id == spaceId) = some space)
    (hid : sp.id = space.id) :
    (setSpaceFirst spaces sp).find? (fun s => s.id == spaceId) = some sp := by
  induction spaces with
  | nil => simp at hfind
  | cons s rest ih =>
    have hsid : space.id = spaceId := find?_space_id hfind
    by_cases he : s.id = spaceId
    · rw [setSpaceFirst, if_pos (by rw [hid, hsid]; exact he)]
      rw [List.find?_cons_of_pos]
      simp [hid, hsid]
    · rw [List.find?_cons_of_neg] at hfind
      · rw [setSpaceFirst, if_neg (by rw [hid, hsid]; exact he)]
        rw [List.find?_cons_of_neg]
        · exact ih hfind
        · simp [he]
      · simp [he]

/-- Looking the space up after `reconcileCore` returns the source-adjusted
record. -/
theorem getSpace_reconcile {st : EngState} {spaceId : Nat} {opts : Opts}
    {outcome : MoveOutcome} {space : Space}
    (h0 : spaceId ≠ 0)
    (hfind : st.spaces.find? (fun s => s.id == spaceId) = some space)
    (hne : hostGroupUnpinned st.host spaceId ≠ []) :
    getSpace (reconcileSpaceTabOrdering st spaceId opts outcome).1 spaceId
      = some (spaceAfterSource space (hostGroupOrderList st.host spaceId) opts) := by
  have hid : (spaceAfterSource space (hostGroupOrderList st.host spaceId) opts).id = space.id := by
    rw [spaceAfterSource]
    cases hs : opts.source
    · rfl
    · exact applyChromeSource_id
  rw [getSpace, reconcile_eq_core h0 hfind hne, reconcileCore_spaces]
  exact find?_setSpaceFirst hfind hid

/-- C4 counterexample: with source = host and no moved tab passed, a
bookmark-tracked id (5) positioned after the first temporary id is *not*
moved to the end of the bookmark block: the persisted `spaceBookmarks`
stays `[5,6]` instead of the claimed `[6,5]`. -/
theorem c4_counterexample :
    ((hostGroupOrder c4State 1).findIdx? (fun id => id == 5) = some 2
      ∧ (hostGroupOrder c4State 1).findIdx?
          (fun id => !(([5, 6] : List Nat).contains id)) = some 1)
    ∧ (getSpace (reconcileSpaceTabOrdering c4State 1
          ⟨Source.chrome, Option.none, 0⟩ MoveOutcome.success).1 1).map Space.spaceBookmarks
        = some [5, 6]
    ∧ some [5, 6] ≠ some (([5, 6].filter (fun id => id ≠ 5)) ++ [5]) := by
  decide

/-- C4 (amended): when `reconcileSpaceTabOrdering` runs with source = host,
the persisted record becomes: `temporaryTabs` recomputed as the host's
current group order minus the bookmark-tracked ids (deduplicated); and the
bookmark block is rewritten only for the specific `movedTabId` passed in
the options — when that id is bookmark-tracked and positioned after the
first temporary id in the host order it is moved to the end of
`spaceBookmarks`, and with no `movedTabId` the bookmark block is unchanged. -/
theorem c4_chrome_source_update
    {st : EngState} {spaceId : Nat} {space : Space} {opts : Opts} {outcome : MoveOutcome}
    (hsrc : opts.source = Source.chrome)
    (hfind : st.spaces.find? (fun s => s.id == spaceId) = some space)
    (h0 : spaceId ≠ 0)
    (hne : hostGroupUnpinned st.host spaceId ≠ []) :
    ∃ sp, getSpace (reconcileSpaceTabOrdering st spaceId opts outcome).1 spaceId = some sp
      ∧ sp.temporaryTabs = uniqPreserveOrder
          ((hostGroupOrder st spaceId).filter
            (fun id => !(space.spaceBookmarks.contains id)))
      ∧ (opts.movedTabId = Option.none → sp.spaceBookmarks = space.spaceBookmarks)
      ∧ (∀ moved movedIndex firstTempIndex,
          opts.movedTabId = some moved →
          space.spaceBookmarks.contains moved = true →
          (hostGroupOrder st spaceId).findIdx? (fun id => id == moved) = some movedIndex →
          (hostGroupOrder st spaceId).findIdx?
            (fun id => !(space.spaceBookmarks.contains id)) = some firstTempIndex →
          firstTempIndex < movedIndex →
          sp.spaceBookmarks
            = (space.spaceBookmarks.filter (fun id => id ≠ moved)) ++ [moved]) := by
  refine ⟨spaceAfterSource space (hostGroupOrderList st.host spaceId) opts,
    getSpace_reconcile h0 hfind hne, ?_, ?_, ?_⟩
  · rw [spaceAfterSource, hsrc, hostGroupOrder]
    exact applyChromeSource_temporaryTabs
  · intro hm
    rw [spaceAfterSource, hsrc, hm]
    exact applyChromeSource_bookmarks_none
  · intro moved movedIndex firstTempIndex hm hb hmi hfi hlt
    rw [hostGroupOrder] at hmi hfi
    rw [spaceAfterSource, hsrc, hm]
    exact applyChromeSource_bookmarks_moved hb hmi hfi hlt

/-- Witness for C4 (amended) at a concrete input: host order `[6,7,5]`,
moved tab 5; the record becomes temps `[7]`, bookmarks `[6,5]`. -/
theorem c4_chrome_source_update_witness :
    (getSpace (reconcileSpaceTabOrdering
        ⟨[⟨1, [5, 6], [7], Option.none⟩],
         [⟨6, false, 1⟩, ⟨7, false, 1⟩, ⟨5, false, 1⟩], ⟨0, [], []⟩⟩ 1
        ⟨Source.chrome, some 5, 0⟩ MoveOutcome.success).1 1).map
        (fun sp => (sp.spaceBookmarks, sp.temporaryTabs))
      = some ([6, 5], [7]) := by
  obtain ⟨sp, hsp, htemps, _, hmoved⟩ := @c4_chrome_source_update
    ⟨[⟨1, [5, 6], [7], Option.none⟩],
     [⟨6, false, 1⟩, ⟨7, false, 1⟩, ⟨5, false, 1⟩], ⟨0, [], []⟩⟩ 1
    ⟨1, [5, 6], [7], Option.none⟩ ⟨Source.chrome, some 5, 0⟩ MoveOutcome.success
    rfl (by decide) (by decide) (by decide)
  rw [hsp]
  have hbk := hmoved 5 2 1 rfl (by decide) (by decide) (by decide) (by decide)
  show some (sp.spaceBookmarks, sp.temporaryTabs) = some ([6, 5], [7])
  rw [hbk, htemps]
  decide

theorem handleMoveFailure_midDrag_retry {r : RetryState} {spaceId retryAttempt : Nat}
    {message : String} (h : isChromeMidDrag message = true)
    (hb : retryAttempt + 1 ≤ 12) :
    handleMoveFailure r spaceId retryAttempt message
      = (scheduleReconcileRetry r spaceId (retryAttempt + 1),
         some (retryAttempt + 1, min 1200 (200 + (retryAttempt + 1) * 100)),
         false, Option.none, true) := by
  rw [handleMoveFailure, if_pos h]
  dsimp only
  rw [if_pos hb]

theorem handleMoveFailure_midDrag_giveUp {r : RetryState} {spaceId retryAttempt : Nat}
    {message : String} (h : isChromeMidDrag message = true)
    (hb : ¬(retryAttempt + 1 ≤ 12)) :
    handleMoveFailure r spaceId retryAttempt message
      = (r, Option.none, true, Option.none, true) := by
  rw [handleMoveFailure, if_pos h]
  dsimp only
  rw [if_neg hb]

theorem handleMoveFailure_other {r : RetryState} {spaceId retryAttempt : Nat}
    {message : String} (h : isChromeMidDrag message = false) :
    handleMoveFailure r spaceId retryAttempt message
      = (r, Option.none, false, some message, false) := by
  rw [handleMoveFailure, if_neg]
  simp [h]

theorem reconcileCore_failure_effect {st : EngState} {spaceId : Nat} {opts : Opts}
    {space : Space} {message : String}
    (hdiff : hostGroupOrderList st.host spaceId
      ≠ desiredOrderOf (spaceAfterSource space (hostGroupOrderList st.host spaceId) opts)
          (hostGroupOrderList st.host spaceId)) :
    (reconcileCore st spaceId opts (MoveOutcome.failure message) space).2
      = { moveIssued := some
            (desiredOrderOf (spaceAfterSource space (hostGroupOrderList st.host spaceId) opts)
               (hostGroupOrderList st.host spaceId),
             st.host.findIdx (fun t => t.id == (hostGroupOrderList st.host spaceId).headD 0))
          retryScheduled := (handleMoveFailure st.retry spaceId opts.retryAttempt message).2.1
          gaveUpWarned := (handleMoveFailure st.retry spaceId opts.retryAttempt message).2.2.1
          errorThrown := (handleMoveFailure st.retry spaceId opts.retryAttempt message).2.2.2.1
          saved := (handleMoveFailure st.retry spaceId opts.retryAttempt message).2.2.2.2 } := by
  simp only [reconcileCore]
  rw [if_neg hdiff]

/-- C5: when the host rejects the batched move, the engine's handling is:
for a message containing the recognized mid-drag phrase, no error is
rethrown and either a retry is scheduled (attempt ≤ 12, delay
`min 1200 (200 + attempt·100)`, hence capped at 1200 ms and
non-decreasing in the attempt) or, past the attempt ceiling, the engine
gives up with a warning; for any other message, the error is rethrown to
the caller and no retry is scheduled — never silently swallowed. -/
theorem c5_move_failure_handling
    {st : EngState} {spaceId : Nat} {space : Space} {opts : Opts} (message : String)
    (hfind : st.spaces.find? (fun s => s.id == spaceId) = some space)
    (h0 : spaceId ≠ 0)
    (hne : hostGroupUnpinned st.host spaceId ≠ [])
    (hdiff : hostGroupOrderList st.host spaceId
      ≠ desiredOrderOf (spaceAfterSource space (hostGroupOrderList st.host spaceId) opts)
          (hostGroupOrderList st.host spaceId)) :
    (reconcileSpaceTabOrdering st spaceId opts (MoveOutcome.failure message)).2.moveIssued
        ≠ Option.none
    ∧ (isChromeMidDrag message = true → opts.retryAttempt + 1 ≤ 12 →
        (reconcileSpaceTabOrdering st spaceId opts (MoveOutcome.failure message)).2.retryScheduled
            = some (opts.retryAttempt + 1, min 1200 (200 + (opts.retryAttempt + 1) * 100))
        ∧ (reconcileSpaceTabOrdering st spaceId opts
            (MoveOutcome.failure message)).2.errorThrown = Option.none
        ∧ (reconcileSpaceTabOrdering st spaceId opts
            (MoveOutcome.failure message)).2.gaveUpWarned = false)
    ∧ (isChromeMidDrag message = true → ¬(opts.retryAttempt + 1 ≤ 12) →
        (reconcileSpaceTabOrdering st spaceId opts
            (MoveOutcome.failure message)).2.gaveUpWarned = true
        ∧ (reconcileSpaceTabOrdering st spaceId opts
            (MoveOutcome.failure message)).2.retryScheduled = Option.none
        ∧ (reconcileSpaceTabOrdering st spaceId opts
            (MoveOutcome.failure message)).2.errorThrown = Option.none)
    ∧ (isChromeMidDrag message = false →
        (reconcileSpaceTabOrdering st spaceId opts
            (MoveOutcome.failure message)).2.errorThrown = some message
        ∧ (reconcileSpaceTabOrdering st spaceId opts
            (MoveOutcome.failure message)).2.retryScheduled = Option.none
        ∧ (reconcileSpaceTabOrdering st spaceId opts
            (MoveOutcome.failure message)).2.gaveUpWarned = false)
    ∧ (∀ a d, (reconcileSpaceTabOrdering st spaceId opts
          (MoveOutcome.failure message)).2.retryScheduled = some (a, d) →
        a ≤ 12 ∧ d ≤ 1200) := by
  rw [reconcile_eq_core h0 hfind hne, reconcileCore_failure_effect hdiff]
  refine ⟨by simp, ?_, ?_, ?_, ?_⟩
  · intro hmid hb
    rw [handleMoveFailure_midDrag_retry hmid hb]
    exact ⟨rfl, rfl, rfl⟩
  · intro hmid hb
    rw [handleMoveFailure_midDrag_giveUp hmid hb]
    exact ⟨rfl, rfl, rfl⟩
  · intro hother
    rw [handleMoveFailure_other hother]
    exact ⟨rfl, rfl, rfl⟩
  · intro a d hsched
    by_cases hmid : isChromeMidDrag message = true
    · by_cases hb : opts.retryAttempt + 1 ≤ 12
      · rw [handleMoveFailure_midDrag_retry hmid hb] at hsched
        have := Option.some.inj hsched
        have ha : opts.retryAttempt + 1 = a := congrArg Prod.fst this
        have hd : min 1200 (200 + (opts.retryAttempt + 1) * 100) = d :=
          congrArg Prod.snd this
        exact ⟨ha ▸ hb, hd ▸ Nat.min_le_left _ _⟩
      · rw [handleMoveFailure_midDrag_giveUp hmid hb] at hsched
        simp at hsched
    · rw [handleMoveFailure_other (Bool.eq_false_iff.mpr hmid ▸ rfl)] at hsched
      · simp at hsched

/-- Witness for C5 at concrete inputs: a contention failure at attempt 0
schedules a retry `(1, 300)` with nothing thrown; an unrelated failure is
rethrown with no retry. -/
theorem c5_move_failure_handling_witness :
    ((reconcileSpaceTabOrdering
        ⟨[⟨1, [10], [], Option.none⟩], [⟨20, false, 1⟩, ⟨10, false, 1⟩], ⟨0, [], []⟩⟩ 1
        Opts.default
        (MoveOutcome.failure "Error: Tabs cannot be edited right now.")).2.retryScheduled
          = some (1, 300)
      ∧ (reconcileSpaceTabOrdering
          ⟨[⟨1, [10], [], Option.none⟩], [⟨20, false, 1⟩, ⟨10, false, 1⟩], ⟨0, [], []⟩⟩ 1
          Opts.default
          (MoveOutcome.failure "Error: Tabs cannot be edited right now.")).2.errorThrown
          = Option.none)
    ∧ ((reconcileSpaceTabOrdering
        ⟨[⟨1, [10], [], Option.none⟩], [⟨20, false, 1⟩, ⟨10, false, 1⟩], ⟨0, [], []⟩⟩ 1
        Opts.default (MoveOutcome.failure "boom")).2.errorThrown = some "boom"
      ∧ (reconcileSpaceTabOrdering
          ⟨[⟨1, [10], [], Option.none⟩], [⟨20, false, 1⟩, ⟨10, false, 1⟩], ⟨0, [], []⟩⟩ 1
          Opts.default (MoveOutcome.failure "boom")).2.retryScheduled = Option.none) := by
  have h1 := @c5_move_failure_handling
    ⟨[⟨1, [10], [], Option.none⟩], [⟨20, false, 1⟩, ⟨10, false, 1⟩], ⟨0, [], []⟩⟩ 1
    ⟨1, [10], [], Option.none⟩ Opts.default "Error: Tabs cannot be edited right now."
    (by decide) (by decide) (by decide) (by decide)
  have h2 := @c5_move_failure_handling
    ⟨[⟨1, [10], [], Option.none⟩], [⟨20, false, 1⟩, ⟨10, false, 1⟩], ⟨0, [], []⟩⟩ 1
    ⟨1, [10], [], Option.none⟩ Opts.default "boom"
    (by decide) (by decide) (by decide) (by decide)
  have hmid1 : isChromeMidDrag "Error: Tabs cannot be edited right now." = true := by decide
  have hmid2 : isChromeMidDrag "boom" = false := by decide
  have ha := h1.2.1 hmid1 (by decide)
  have hb := h2.2.2.2.1 hmid2
  exact ⟨⟨ha.1, ha.2.1⟩, ⟨hb.1, hb.2.1⟩⟩

theorem reconcile_success_retry (st : EngState) (sid : Nat) (opts : Opts) :
    (reconcileSpaceTabOrdering st sid opts MoveOutcome.success).1.retry = st.retry := by
  rw [reconcileSpaceTabOrdering]
  by_cases h0 : sid = 0
  · rw [if_pos h0]
  · rw [if_neg h0]
    cases hfind : st.spaces.find? (fun s => s.id == sid) with
    | none => rfl
    | some space =>
      dsimp only
      by_cases hemp : (hostGroupUnpinned st.host sid).isEmpty = true
      · rw [if_pos hemp]
      · rw [if_neg hemp]
        simp only [reconcileCore]
        split
        · rfl
        · rfl

theorem mem_of_lookup_retry {l : List (Nat × RetryEntry)} {k : Nat} {e : RetryEntry}
    (h : l.lookup k = some e) : (k, e) ∈ l := by
  induction l with
  | nil => simp [List.lookup] at h
  | cons p rest ih =>
    cases p with
    | mk p1 p2 =>
      cases hbe : (k == p1) with
      | true =>
        simp only [List.lookup, hbe] at h
        have : p2 = e := Option.some.inj h
        have hk : k = p1 := eq_of_beq hbe
        subst this; subst hk
        exact List.mem_cons_self _ _
      | false =>
        simp only [List.lookup, hbe] at h
        exact List.mem_cons_of_mem _ (ih h)

theorem lookup_filter_append {l : List (Nat × RetryEntry)} {k : Nat} {e : RetryEntry} :
    ((l.filter (fun p => p.1 ≠ k)) ++ [(k, e)]).lookup k = some e := by
  induction l with
  | nil => simp [List.lookup]
  | cons p rest ih =>
    by_cases hp : p.1 = k
    · rw [List.filter_cons_of_neg (by simpa using hp)]
      exact ih
    · rw [List.filter_cons_of_pos (by simpa using hp), List.cons_append]
      have hbe : (k == p.1) = false := by simp [Ne.symm hp]
      cases p with
      | mk p1 p2 =>
        simp only [List.lookup, hbe]
        exact ih

/-- C6 counterexample: a new reconciliation request for space 1 (which
succeeds without needing a move) leaves the pending retry timer for
space 1 alive and mapped — it does not cancel and replace it. -/
theorem c6_counterexample :
    c6State.retry.bySpace.lookup 1 = some ⟨0, 3⟩
    ∧ 0 ∈ c6State.retry.active
    ∧ (reconcileSpaceTabOrdering c6State 1 Opts.default MoveOutcome.success).1.retry
        = c6State.retry := by
  decide

/-- C6 (amended): the per-space retry map holds at most one pending timer
per space (well-formedness is preserved by scheduling), and a newly
scheduled retry for a space cancels the previously pending timer of that
space and replaces the map entry with the fresh timer; but a
reconciliation request that does not itself schedule a retry (e.g. one
whose move succeeds) leaves pending retries untouched. -/
theorem c6_retry_scheduling
    (r : RetryState) (spaceId attempt : Nat) (hwf : retryWF r) :
    retryWF (scheduleReconcileRetry r spaceId attempt)
    ∧ (scheduleReconcileRetry r spaceId attempt).bySpace.lookup spaceId
        = some ⟨r.nextTimer, attempt⟩
    ∧ (∀ e, r.bySpace.lookup spaceId = some e →
        e.timeoutId ∉ (scheduleReconcileRetry r spaceId attempt).active)
    ∧ (∀ (st : EngState) (sid : Nat) (opts : Opts),
        (reconcileSpaceTabOrdering st sid opts MoveOutcome.success).1.retry = st.retry) := by
  obtain ⟨hnd, hlt⟩ := hwf
  have hfilter_sub : ∀ x ∈ r.bySpace.filter (fun p => p.1 ≠ spaceId), x ∈ r.bySpace :=
    fun x hx => (List.mem_filter.mp hx).1
  have heq : scheduleReconcileRetry r spaceId attempt
      = { nextTimer := r.nextTimer + 1
          active := (match r.bySpace.lookup spaceId with
            | some existing => r.active.filter (fun x => x ≠ existing.timeoutId)
            | Option.none => r.active) ++ [r.nextTimer]
          bySpace := (r.bySpace.filter (fun p => p.1 ≠ spaceId))
            ++ [(spaceId, ⟨r.nextTimer, attempt⟩)] } := by
    rw [scheduleReconcileRetry]
    cases hl : r.bySpace.lookup spaceId with
    | none => rfl
    | some existing => rfl
  refine ⟨⟨?_, ?_⟩, ?_, ?_, ?_⟩
  · rw [heq]
    simp only [List.map_append, List.map_cons, List.map_nil]
    rw [List.nodup_append]
    refine ⟨?_, List.nodup_singleton _, ?_⟩
    · exact List.Nodup.sublist (List.Sublist.map _ (List.filter_sublist _)) hnd
    · intro a ha hb
      simp only [List.mem_singleton] at hb
      obtain ⟨p, hp, hpa⟩ := List.mem_map.mp ha
      have hne : p.1 ≠ spaceId := by simpa using (List.mem_filter.mp hp).2
      exact hne (hpa.trans hb)
  · rw [heq]
    intro p hp
    simp only [List.mem_append, List.mem_singleton] at hp
    rcases hp with hp | hp
    · exact Nat.lt_succ_of_lt (hlt p (hfilter_sub p hp))
    · subst hp
      exact Nat.lt_succ_self _
  · rw [heq]
    exact lookup_filter_append
  · intro e he
    rw [heq]
    dsimp only
    rw [he]
    intro hc
    rcases List.mem_append.mp hc with hm | hm
    · have hne : e.timeoutId ≠ e.timeoutId := by simpa using (List.mem_filter.mp hm).2
      exact hne rfl
    · have hmem : (spaceId, e) ∈ r.bySpace := mem_of_lookup_retry he
      have hlt' := hlt (spaceId, e) hmem
      have : e.timeoutId = r.nextTimer := by simpa using hm
      rw [this] at hlt'
      exact Nat.lt_irrefl _ hlt'
  · exact reconcile_success_retry

/-- Witness for C6 (amended) at a concrete retry state: scheduling for
space 1 replaces the map entry and cancels pending timer 0. -/
theorem c6_retry_scheduling_witness :
    retryWF (⟨1, [0], [(1, ⟨0, 3⟩)]⟩ : RetryState)
    ∧ ((scheduleReconcileRetry ⟨1, [0], [(1, ⟨0, 3⟩)]⟩ 1 4).bySpace.lookup 1 = some ⟨1, 4⟩)
    ∧ 0 ∉ (scheduleReconcileRetry ⟨1, [0], [(1, ⟨0, 3⟩)]⟩ 1 4).active := by
  have h := c6_retry_scheduling ⟨1, [0], [(1, ⟨0, 3⟩)]⟩ 1 4 (by decide)
  exact ⟨by decide, h.2.1, h.2.2.1 ⟨0, 3⟩ (by decide)⟩

theorem moveTabToPinned_disjoint {space : Space} {tabId : Nat}
    (h : disjointSpace space) : disjointSpace (moveTabToPinned space tabId) := by
  rw [moveTabToPinned]
  dsimp only
  split
  · intro id hb ht
    exact h id hb (List.mem_of_mem_filter ht)
  · intro id hb ht
    rcases List.mem_append.mp hb with hb | hb
    · exact h id hb (List.mem_of_mem_filter ht)
    · have hid : id = tabId := by simpa using hb
      have := (List.mem_filter.mp ht).2
      rw [hid] at this
      simp at this

theorem moveTabToTemp_disjoint {space : Space} {tabId : Nat}
    (h : disjointSpace space) : disjointSpace (moveTabToTemp space tabId) := by
  rw [moveTabToTemp]
  dsimp only
  split
  · intro id hb ht
    exact h id (List.mem_of_mem_filter hb) ht
  · intro id hb ht
    rcases List.mem_append.mp ht with ht | ht
    · exact h id (List.mem_of_mem_filter hb) ht
    · have hid : id = tabId := by simpa using ht
      have := (List.mem_filter.mp hb).2
      rw [hid] at this
      simp at this

/-- C3 (code-bug exhibit): the spec's disjointness invariant — stated
three times in the spec and maintained by `moveTabToPinned`,
`moveTabToTemp` and `moveTabToSpace` — is broken by the bookmark-click
handler: clicking a pinned bookmark row whose URL matches an open tab that
is currently registered as a *temporary* tab of the same space pushes the
tab id into `spaceBookmarks` without removing it from `temporaryTabs`,
leaving id 42 in both arrays. -/
theorem c3_bookmark_click_breaks_disjointness :
    disjointSpace ⟨1, [], [42], Option.none⟩
    ∧ bookmarkClickUpdate [⟨1, [], [42], Option.none⟩] 1 42 true
        = [⟨1, [42], [42], some 42⟩]
    ∧ ¬ disjointSpace ⟨1, [42], [42], some 42⟩ := by
  decide

/-- C7: the archive holds at most 100 records; adding a record whose URL
is already archived leaves the archive unchanged; and adding a fresh
record (valid fields, fresh URL, with a timestamp newer than every
existing record) keeps the new record and evicts only oldest-by-timestamp
records: anything dropped is no newer than everything kept. -/
theorem c7_archive_cap_dedup_eviction
    (archivedTabs : List ArchivedTab) (url name : String) (spaceId now : Nat) :
    (archivedTabs.any (fun t => t.url == url) = true →
      addArchivedTab archivedTabs url name spaceId now = archivedTabs)
    ∧ (archivedTabs.length ≤ 100 →
      (addArchivedTab archivedTabs url name spaceId now).length ≤ 100)
    ∧ (url ≠ "" → name ≠ "" → spaceId ≠ 0 →
      archivedTabs.any (fun t => t.url == url) = false →
      (∀ t ∈ archivedTabs, t.archivedAt < now) →
      ((⟨url, name, spaceId, now⟩ : ArchivedTab)
          ∈ addArchivedTab archivedTabs url name spaceId now
        ∧ ∀ x ∈ archivedTabs ++ [(⟨url, name, spaceId, now⟩ : ArchivedTab)],
            x ∉ addArchivedTab archivedTabs url name spaceId now →
            ∀ y ∈ addArchivedTab archivedTabs url name spaceId now,
              x.archivedAt ≤ y.archivedAt)) := by
  refine ⟨?_, ?_, ?_⟩
  · intro hdup
    rw [addArchivedTab]
    by_cases hv : url = "" ∨ name = "" ∨ spaceId = 0
    · rw [if_pos hv]
    · rw [if_neg hv, if_pos hdup]
  · intro hlen
    rw [addArchivedTab]
    by_cases hv : url = "" ∨ name = "" ∨ spaceId = 0
    · rw [if_pos hv]
      exact hlen
    · by_cases hd : archivedTabs.any (fun t => t.url == url) = true
      · rw [if_neg hv, if_pos hd]
        exact hlen
      · rw [if_neg hv, if_neg hd, List.length_take]
        exact Nat.min_le_left _ _
  · intro hu hn hs hdup hfresh
    have hvalid : ¬(url = "" ∨ name = "" ∨ spaceId = 0) := by
      rintro (h | h | h)
      · exact hu h
      · exact hn h
      · exact hs h
    have hres : addArchivedTab archivedTabs url name spaceId now
        = (sortByArchivedAtDesc
            (archivedTabs ++ [⟨url, name, spaceId, now⟩])).take MAX_ARCHIVED_TABS := by
      rw [addArchivedTab, if_neg hvalid, if_neg (by rw [hdup]; exact Bool.false_ne_true)]
    have hperm := List.perm_insertionSort archivedGE
      (archivedTabs ++ [(⟨url, name, spaceId, now⟩ : ArchivedTab)])
    have hsorted := List.sorted_insertionSort archivedGE
      (archivedTabs ++ [(⟨url, name, spaceId, now⟩ : ArchivedTab)])
    rw [List.Sorted] at hsorted
    have hsplit := List.take_append_drop MAX_ARCHIVED_TABS
      (sortByArchivedAtDesc (archivedTabs ++ [(⟨url, name, spaceId, now⟩ : ArchivedTab)]))
    have hpw := List.pairwise_append.mp (by
      rw [hsplit]
      exact hsorted)
    have hmem_of_val : ∀ z, z ∈ sortByArchivedAtDesc
        (archivedTabs ++ [(⟨url, name, spaceId, now⟩ : ArchivedTab)])
        ↔ z ∈ archivedTabs ++ [(⟨url, name, spaceId, now⟩ : ArchivedTab)] :=
      fun z => hperm.mem_iff
    constructor
    · by_cases he : (⟨url, name, spaceId, now⟩ : ArchivedTab)
          ∈ addArchivedTab archivedTabs url name spaceId now
      · exact he
      · exfalso
        rw [hres] at he
        have hin : (⟨url, name, spaceId, now⟩ : ArchivedTab)
            ∈ sortByArchivedAtDesc
              (archivedTabs ++ [(⟨url, name, spaceId, now⟩ : ArchivedTab)]) := by
          rw [hmem_of_val]
          exact List.mem_append_right _ (List.mem_singleton.mpr rfl)
        have hdrop : (⟨url, name, spaceId, now⟩ : ArchivedTab)
            ∈ (sortByArchivedAtDesc
              (archivedTabs ++ [(⟨url, name, spaceId, now⟩ : ArchivedTab)])).drop
                MAX_ARCHIVED_TABS := by
          rcases (by rw [← hsplit] at hin; exact List.mem_append.mp hin) with h | h
          · exact absurd h he
          · exact h
        have htake_ne : (sortByArchivedAtDesc
            (archivedTabs ++ [(⟨url, name, spaceId, now⟩ : ArchivedTab)])).take
              MAX_ARCHIVED_TABS ≠ [] := by
          intro hc
          have hlen0 := congrArg List.length hc
          rw [List.length_take] at hlen0
          simp only [List.length_nil] at hlen0
          have hlenpos : 0 < (sortByArchivedAtDesc
              (archivedTabs ++ [(⟨url, name, spaceId, now⟩ : ArchivedTab)])).length :=
            List.length_pos_of_mem hin
          rcases Nat.min_eq_zero_iff.mp hlen0 with h | h
          · rw [MAX_ARCHIVED_TABS] at h
            exact absurd h (by decide)
          · rw [h] at hlenpos
            exact Nat.lt_irrefl _ hlenpos
        obtain ⟨z, hz⟩ := List.exists_mem_of_ne_nil _ htake_ne
        have hge := hpw.2.2 z hz _ hdrop
        have hzl : z ∈ archivedTabs ++ [(⟨url, name, spaceId, now⟩ : ArchivedTab)] := by
          rw [← hmem_of_val, ← hsplit]
          exact List.mem_append_left _ hz
        rcases List.mem_append.mp hzl with hza | hze
        · have := hfresh z hza
          rw [archivedGE] at hge
          dsimp only at hge
          exact Nat.lt_irrefl _ (Nat.lt_of_lt_of_le this hge)
        · have : z = (⟨url, name, spaceId, now⟩ : ArchivedTab) := by simpa using hze
          rw [this] at hz
          exact he hz
    · intro x hx hnotin y hy
      rw [hres] at hnotin hy
      have hxin : x ∈ sortByArchivedAtDesc
          (archivedTabs ++ [(⟨url, name, spaceId, now⟩ : ArchivedTab)]) :=
        (hmem_of_val x).mpr hx
      have hxdrop : x ∈ (sortByArchivedAtDesc
          (archivedTabs ++ [(⟨url, name, spaceId, now⟩ : ArchivedTab)])).drop
            MAX_ARCHIVED_TABS := by
        rcases (by rw [← hsplit] at hxin; exact List.mem_append.mp hxin) with h | h
        · exact absurd h hnotin
        · exact h
      exact hpw.2.2 y hy x hxdrop

/-- Witness for C7 at concrete inputs: dedup leaves the archive unchanged,
and a fresh add keeps the new record within the cap. -/
theorem c7_archive_witness :
    addArchivedTab [⟨"old", "n", 1, 5⟩] "old" "x" 1 7 = [⟨"old", "n", 1, 5⟩]
    ∧ (addArchivedTab [⟨"old", "n", 1, 5⟩] "new" "nn" 2 10).length ≤ 100
    ∧ (⟨"new", "nn", 2, 10⟩ : ArchivedTab)
        ∈ addArchivedTab [⟨"old", "n", 1, 5⟩] "new" "nn" 2 10 := by
  have h := c7_archive_cap_dedup_eviction [⟨"old", "n", 1, 5⟩] "new" "nn" 2 10
  have hd := c7_archive_cap_dedup_eviction [⟨"old", "n", 1, 5⟩] "old" "x" 1 7
  exact ⟨hd.1 (by decide), h.2.1 (by decide),
    (h.2.2 (by decide) (by decide) (by decide) (by decide) (by decide)).1⟩

theorem applyMergeItem_bm_dup {snap tgt : List BNode} {i : Nat} {t u : String}
    (h : bookmarkUrlIn snap u = true) :
    applyMergeItem snap tgt (BNode.bm i t u) = tgt := by
  rw [applyMergeItem, if_pos h]

theorem applyMergeItem_bm_new {snap tgt : List BNode} {i : Nat} {t u : String}
    (h : bookmarkUrlIn snap u = false) :
    applyMergeItem snap tgt (BNode.bm i t u) = tgt ++ [BNode.bm i t u] := by
  rw [applyMergeItem, if_neg]
  rw [h]
  exact Bool.false_ne_true

theorem applyMergeItem_fold_move {snap tgt : List BNode} {i : Nat} {t : String}
    {d : Nat} {ch : List BNode}
    (h : findFolderByTitle snap t = Option.none) :
    applyMergeItem snap tgt (BNode.fold i t d ch) = tgt ++ [BNode.fold i t d ch] := by
  rw [applyMergeItem, h]

theorem applyMergeItem_fold_merge {snap tgt : List BNode} {i : Nat} {t : String}
    {d : Nat} {ch : List BNode} {ti : Nat} {tt : String} {dd : Nat} {tch : List BNode}
    (h : findFolderByTitle snap t = some (BNode.fold ti tt dd tch)) :
    applyMergeItem snap tgt (BNode.fold i t d ch)
      = tgt.map (mergeUpdateNode ti ch) := by
  rw [applyMergeItem, h]
  apply List.map_congr_left
  intro n _
  cases n with
  | bm i' t' u' => rfl
  | fold i' t' d' ch' =>
    rw [mergeUpdateNode]
    rfl

theorem mergeUpdateNode_nodeId {tgtId : Nat} {srcCh : List BNode} {n : BNode} :
    (mergeUpdateNode tgtId srcCh n).nodeId = n.nodeId := by
  cases n with
  | bm i t u => rfl
  | fold i t d ch =>
    rw [mergeUpdateNode]
    split <;> rfl

theorem mergeUpdateNode_title {tgtId : Nat} {srcCh : List BNode} {n : BNode} :
    (mergeUpdateNode tgtId srcCh n).title = n.title := by
  cases n with
  | bm i t u => rfl
  | fold i t d ch =>
    rw [mergeUpdateNode]
    split <;> rfl

theorem mergeUpdateNode_isFolder {tgtId : Nat} {srcCh : List BNode} {n : BNode} :
    (mergeUpdateNode tgtId srcCh n).isFolder = n.isFolder := by
  cases n with
  | bm i t u => rfl
  | fold i t d ch =>
    rw [mergeUpdateNode]
    split <;> rfl

theorem mergeUpdateNode_dateAdded {tgtId : Nat} {srcCh : List BNode} {n : BNode} :
    (mergeUpdateNode tgtId srcCh n).dateAdded = n.dateAdded := by
  cases n with
  | bm i t u => rfl
  | fold i t d ch =>
    rw [mergeUpdateNode]
    split <;> rfl

theorem mergeUpdateNode_target {tgtId : Nat} {srcCh : List BNode} {tt : String}
    {td : Nat} {tch : List BNode} :
    mergeUpdateNode tgtId srcCh (BNode.fold tgtId tt td tch)
      = BNode.fold tgtId tt td (mergeFolderContentsRecursive srcCh tch) := by
  rw [mergeUpdateNode]
  simp

theorem mergeOneInto_found {children : List BNode} {tgtId srcId : Nat}
    {si : Nat} {st : String} {sd : Nat} {srcCh : List BNode}
    (hfind : findFolderById children srcId = some (BNode.fold si st sd srcCh)) :
    mergeOneInto children tgtId srcId
      = (children.map (mergeUpdateNode tgtId srcCh)).filter
          (fun n => n.nodeId ≠ srcId) := by
  rw [mergeOneInto, hfind]

theorem findFolderById_found {children : List BNode} {i : Nat} {f : BNode}
    (hf : f ∈ children) (hfold : f.isFolder = true) (hid : f.nodeId = i) :
    ∃ si st sd sch, findFolderById children i = some (BNode.fold si st sd sch) := by
  have hsome : (children.find? (fun n => n.isFolder && n.nodeId == i)).isSome := by
    rw [List.find?_isSome]
    exact ⟨f, hf, by simp [hfold, hid]⟩
  rw [findFolderById]
  cases hg : children.find? (fun n => n.isFolder && n.nodeId == i) with
  | none => rw [hg] at hsome; simp at hsome
  | some g =>
    have hp := List.find?_some hg
    cases g with
    | bm gi gt gu => simp [BNode.isFolder] at hp
    | fold gi gt gd gch => exact ⟨gi, gt, gd, gch, rfl⟩

/-- Every node of the merged list corresponds to a node of the input with
the same id, title, kind and creation time (nothing new appears at top
level). -/
theorem mergeOneInto_corr {children : List BNode} {tgtId srcId : Nat} :
    ∀ n ∈ mergeOneInto children tgtId srcId, ∃ m, m ∈ children
      ∧ n.nodeId = m.nodeId ∧ n.title = m.title ∧ n.isFolder = m.isFolder
      ∧ n.dateAdded = m.dateAdded := by
  intro n hn
  rcases hfind : findFolderById children srcId with _ | g
  · rw [mergeOneInto, hfind] at hn
    exact ⟨n, hn, rfl, rfl, rfl, rfl⟩
  · cases g with
    | bm gi gt gu =>
      rw [mergeOneInto, hfind] at hn
      exact ⟨n, hn, rfl, rfl, rfl, rfl⟩
    | fold gi gt gd gch =>
      rw [mergeOneInto_found hfind] at hn
      obtain ⟨m, hm, hmu⟩ := List.mem_map.mp (List.mem_of_mem_filter hn)
      refine ⟨m, hm, ?_, ?_, ?_, ?_⟩
      · rw [← hmu, mergeUpdateNode_nodeId]
      · rw [← hmu, mergeUpdateNode_title]
      · rw [← hmu, mergeUpdateNode_isFolder]
      · rw [← hmu, mergeUpdateNode_dateAdded]

/-- Every node other than the removed source survives the merge with id,
title, kind and creation time intact. -/
theorem mergeOneInto_preserve {children : List BNode} {tgtId srcId : Nat} {m : BNode}
    (hm : m ∈ children) (hne : m.nodeId ≠ srcId) :
    ∃ n, n ∈ mergeOneInto children tgtId srcId
      ∧ n.nodeId = m.nodeId ∧ n.title = m.title ∧ n.isFolder = m.isFolder
      ∧ n.dateAdded = m.dateAdded := by
  rcases hfind : findFolderById children srcId with _ | g
  · rw [mergeOneInto, hfind]
    exact ⟨m, hm, rfl, rfl, rfl, rfl⟩
  · cases g with
    | bm gi gt gu =>
      rw [mergeOneInto, hfind]
      exact ⟨m, hm, rfl, rfl, rfl, rfl⟩
    | fold gi gt gd gch =>
      rw [mergeOneInto_found hfind]
      refine ⟨mergeUpdateNode tgtId gch m, ?_, mergeUpdateNode_nodeId,
        mergeUpdateNode_title, mergeUpdateNode_isFolder, mergeUpdateNode_dateAdded⟩
      rw [List.mem_filter]
      refine ⟨List.mem_map_of_mem _ hm, ?_⟩
      rw [mergeUpdateNode_nodeId]
      simpa using hne

/-- The (emptied) source folder is deleted from the top level. -/
theorem mergeOneInto_noId {children : List BNode} {tgtId srcId : Nat}
    (h : ∃ f, f ∈ children ∧ f.isFolder = true ∧ f.nodeId = srcId) :
    ∀ n ∈ mergeOneInto children tgtId srcId, n.nodeId ≠ srcId := by
  obtain ⟨f, hf, hfold, hid⟩ := h
  obtain ⟨si, st, sd, sch, hfind⟩ := findFolderById_found hf hfold hid
  rw [mergeOneInto_found hfind]
  intro n hn
  simpa using (List.mem_filter.mp hn).2

/-- The target folder's children become the recursive merge of the
source's children into them. -/
theorem mergeOneInto_target_mem {children : List BNode} {tgtId srcId : Nat}
    {tt : String} {td : Nat} {tch : List BNode}
    {si : Nat} {st : String} {sd : Nat} {sch : List BNode}
    (hmem : BNode.fold tgtId tt td tch ∈ children) (hne : tgtId ≠ srcId)
    (hfind : findFolderById children srcId = some (BNode.fold si st sd sch)) :
    BNode.fold tgtId tt td (mergeFolderContentsRecursive sch tch)
      ∈ mergeOneInto children tgtId srcId := by
  rw [mergeOneInto_found hfind]
  rw [List.mem_filter]
  constructor
  · rw [← mergeUpdateNode_target]
    exact List.mem_map_of_mem _ hmem
  · simpa [BNode.nodeId] using hne

theorem noId_mergeOneInto {x : Nat} {children : List BNode} {tgtId srcId : Nat}
    (h : noId x children) : noId x (mergeOneInto children tgtId srcId) := by
  intro n hn
  obtain ⟨m, hm, hid, _, _, _⟩ := mergeOneInto_corr n hn
  rw [hid]
  exact h m hm

theorem hasRep_mergeOneInto {m : BNode} {children : List BNode} {tgtId srcId : Nat}
    (hne : m.nodeId ≠ srcId) (h : hasRep m children) :
    hasRep m (mergeOneInto children tgtId srcId) := by
  obtain ⟨n, hn, h1, h2, h3, h4⟩ := h
  obtain ⟨n', hn', g1, g2, g3, g4⟩ := mergeOneInto_preserve hn (by rw [h1]; exact hne)
  exact ⟨n', hn', g1.trans h1, g2.trans h2, g3.trans h3, g4.trans h4⟩

theorem noId_foldl_sources {x tgtId : Nat} :
    ∀ (srcs : List BNode) (acc : List BNode), noId x acc →
      noId x (srcs.foldl (fun a s => mergeOneInto a tgtId s.nodeId) acc) := by
  intro srcs
  induction srcs with
  | nil => intro acc h; exact h
  | cons s rest ih =>
    intro acc h
    exact ih _ (noId_mergeOneInto h)

theorem hasRep_foldl_sources {m : BNode} {tgtId : Nat} :
    ∀ (srcs : List BNode) (acc : List BNode),
      (∀ s ∈ srcs, s.nodeId ≠ m.nodeId) → hasRep m acc →
      hasRep m (srcs.foldl (fun a s => mergeOneInto a tgtId s.nodeId) acc) := by
  intro srcs
  induction srcs with
  | nil => intro acc _ h; exact h
  | cons s rest ih =>
    intro acc hs h
    refine ih _ (fun q hq => hs q (List.mem_cons_of_mem _ hq)) ?_
    exact hasRep_mergeOneInto
      (fun hc => hs s (List.mem_cons_self _ _) hc.symm) h

theorem noId_mergeGroupStep {x : Nat} {orig acc : List BNode} {t : String}
    (h : noId x acc) : noId x (mergeGroupStep orig acc t) := by
  rw [mergeGroupStep]
  split
  · exact h
  · cases hs : groupSortOf orig t with
    | nil => exact h
    | cons target sources => exact noId_foldl_sources sources acc h

theorem hasRep_mergeGroupStep {m : BNode} {orig acc : List BNode} {t : String}
    (hs : ∀ s ∈ (groupSortOf orig t).tail, s.nodeId ≠ m.nodeId)
    (h : hasRep m acc) : hasRep m (mergeGroupStep orig acc t) := by
  rw [mergeGroupStep]
  split
  · exact h
  · cases hsort : groupSortOf orig t with
    | nil => exact h
    | cons target sources =>
      refine hasRep_foldl_sources sources acc ?_ h
      intro q hq
      apply hs
      rw [hsort]
      exact hq

theorem noId_foldl_titles {x : Nat} {orig : List BNode} :
    ∀ (titles : List String) (acc : List BNode), noId x acc →
      noId x (titles.foldl (mergeGroupStep orig) acc) := by
  intro titles
  induction titles with
  | nil => intro acc h; exact h
  | cons t rest ih =>
    intro acc h
    exact ih _ (noId_mergeGroupStep h)

theorem hasRep_foldl_titles {m : BNode} {orig : List BNode} :
    ∀ (titles : List String) (acc : List BNode),
      (∀ t' ∈ titles, ∀ s ∈ (groupSortOf orig t').tail, s.nodeId ≠ m.nodeId) →
      hasRep m acc → hasRep m (titles.foldl (mergeGroupStep orig) acc) := by
  intro titles
  induction titles with
  | nil => intro acc _ h; exact h
  | cons t rest ih =>
    intro acc hcond h
    refine ih _ (fun t' ht' => hcond t' (List.mem_cons_of_mem _ ht')) ?_
    exact hasRep_mergeGroupStep (hcond t (List.mem_cons_self _ _)) h

theorem mem_foldersTitled {children : List BNode} {t : String} {n : BNode} :
    n ∈ foldersTitled children t
      ↔ n ∈ children ∧ n.isFolder = true ∧ n.title = t := by
  rw [foldersTitled, List.mem_filter]
  constructor
  · rintro ⟨h1, h2⟩
    have := (Bool.and_eq_true _ _).mp h2
    exact ⟨h1, this.1, eq_of_beq this.2⟩
  · rintro ⟨h1, h2, h3⟩
    exact ⟨h1, by simp [h2, h3]⟩

theorem groupSortOf_perm {orig : List BNode} {t : String} :
    (groupSortOf orig t).Perm (foldersTitled orig t) :=
  List.perm_insertionSort dateLE _

/-- The head of the sorted group exists and has minimal creation time. -/
theorem groupSort_head_min {orig : List BNode} {t : String}
    (hne : foldersTitled orig t ≠ []) :
    ∃ target rest, groupSortOf orig t = target :: rest
      ∧ target ∈ foldersTitled orig t
      ∧ ∀ f ∈ foldersTitled orig t, target.dateAdded ≤ f.dateAdded := by
  have hsne : groupSortOf orig t ≠ [] := by
    intro hc
    apply hne
    have := @groupSortOf_perm orig t
    rw [hc] at this
    exact (List.Perm.nil_eq this).symm
  cases hsort : groupSortOf orig t with
  | nil => exact absurd hsort hsne
  | cons target rest =>
    have hsorted := List.sorted_insertionSort dateLE (foldersTitled orig t)
    rw [List.Sorted] at hsorted
    rw [show List.insertionSort dateLE (foldersTitled orig t) = groupSortOf orig t from rfl,
      hsort] at hsorted
    have hpw := List.pairwise_cons.mp hsorted
    refine ⟨target, rest, rfl, ?_, ?_⟩
    · have : target ∈ groupSortOf orig t := by rw [hsort]; exact List.mem_cons_self _ _
      exact (groupSortOf_perm.mem_iff).mp this
    · intro f hf
      have : f ∈ groupSortOf orig t := (groupSortOf_perm.mem_iff).mpr hf
      rw [hsort] at this
      rcases List.mem_cons.mp this with h | h
      · rw [h]
      · exact hpw.1 f h

theorem group_ids_nodup {orig : List BNode} {t : String}
    (hnd : (orig.map BNode.nodeId).Nodup) :
    ((foldersTitled orig t).map BNode.nodeId).Nodup :=
  List.Nodup.sublist (List.Sublist.map _ (List.filter_sublist _)) hnd

theorem groupSort_ids_nodup {orig : List BNode} {t : String}
    (hnd : (orig.map BNode.nodeId).Nodup) :
    ((groupSortOf orig t).map BNode.nodeId).Nodup := by
  have hperm := (@groupSortOf_perm orig t).map BNode.nodeId
  exact hperm.nodup_iff.mpr (group_ids_nodup hnd)

/-- Distinct top-level ids make (id-equality ⇒ element-equality) hold. -/
theorem topId_inj {orig : List BNode} (hnd : (orig.map BNode.nodeId).Nodup)
    {x y : BNode} (hx : x ∈ orig) (hy : y ∈ orig) (h : x.nodeId = y.nodeId) :
    x = y :=
  List.inj_on_of_nodup_map hnd hx hy h

theorem mem_dedupStrGo {a : String} : ∀ {seen l : List String},
    a ∈ dedupStrGo seen l ↔ a ∈ l ∧ a ∉ seen := by
  intro seen l
  induction l generalizing seen with
  | nil => simp [dedupStrGo]
  | cons t rest ih =>
    by_cases hseen : t ∈ seen
    · rw [show dedupStrGo seen (t :: rest) = dedupStrGo seen rest by
        simp [dedupStrGo, hseen]]
      rw [ih]
      constructor
      · rintro ⟨h1, h2⟩
        exact ⟨List.mem_cons_of_mem _ h1, h2⟩
      · rintro ⟨h1, h2⟩
        rcases List.mem_cons.mp h1 with h | h
        · subst h; exact absurd hseen h2
        · exact ⟨h, h2⟩
    · rw [show dedupStrGo seen (t :: rest) = t :: dedupStrGo (t :: seen) rest by
        simp [dedupStrGo, hseen]]
      simp only [List.mem_cons]
      rw [ih]
      constructor
      · rintro (h | ⟨h1, h2⟩)
        · subst h
          exact ⟨Or.inl rfl, hseen⟩
        · exact ⟨Or.inr h1, fun hc => h2 (List.mem_cons_of_mem _ hc)⟩
      · rintro ⟨h1, h2⟩
        rcases h1 with h | h
        · exact Or.inl h
        · by_cases heq : a = t
          · exact Or.inl heq
          · refine Or.inr ⟨h, fun hc => ?_⟩
            rcases List.mem_cons.mp hc with hh | hh
            · exact heq hh
            · exact h2 hh

theorem mem_dedupStrings {a : String} {l : List String} :
    a ∈ dedupStrings l ↔ a ∈ l := by
  rw [dedupStrings, mem_dedupStrGo]
  simp

theorem nodup_dedupStrGo : ∀ {seen l : List String}, (dedupStrGo seen l).Nodup := by
  intro seen l
  induction l generalizing seen with
  | nil => simp [dedupStrGo]
  | cons t rest ih =>
    by_cases hseen : t ∈ seen
    · simpa [dedupStrGo, hseen] using ih
    · rw [show dedupStrGo seen (t :: rest) = t :: dedupStrGo (t :: seen) rest by
        simp [dedupStrGo, hseen]]
      refine List.nodup_cons.mpr ⟨fun hc => ?_, ih⟩
      exact (mem_dedupStrGo.mp hc).2 (List.mem_cons_self _ _)

theorem nodup_dedupStrings {l : List String} : (dedupStrings l).Nodup :=
  nodup_dedupStrGo

/-- A member of a duplicate group is never id-equal to any folder sorted
into the tail of a *different* title's group; and within its own group the
sorted ids are distinct. Packaged as: any tail element of any group whose
id equals the id of a given member `m` of group `t` must be `m` itself
with `t' = t`. -/
theorem tail_id_clash {root : List BNode} {t : String} {m : BNode}
    (hnd : (root.map BNode.nodeId).Nodup)
    (hm : m ∈ foldersTitled root t) :
    ∀ t' : String, ∀ s ∈ (groupSortOf root t').tail,
      s.nodeId = m.nodeId → s = m ∧ t' = t := by
  intro t' s hs heq
  have hssort : s ∈ groupSortOf root t' := List.mem_of_mem_tail hs
  have hsg : s ∈ foldersTitled root t' := (groupSortOf_perm.mem_iff).mp hssort
  have hsroot : s ∈ root := (mem_foldersTitled.mp hsg).1
  have hmroot : m ∈ root := (mem_foldersTitled.mp hm).1
  have heqel : s = m := topId_inj hnd hsroot hmroot heq
  have hst : s.title = t' := (mem_foldersTitled.mp hsg).2.2
  have hmt : m.title = t := (mem_foldersTitled.mp hm).2.2
  refine ⟨heqel, ?_⟩
  rw [← hst, heqel, hmt]

/-- The kept (oldest) folder of a duplicate group survives the whole merge
routine with its id, title, kind and creation time. -/
theorem merge_keeps_target {root : List BNode} {t : String} {target : BNode}
    {rest : List BNode}
    (hnd : (root.map BNode.nodeId).Nodup)
    (hsort : groupSortOf root t = target :: rest)
    (htmem : target ∈ foldersTitled root t) :
    hasRep target (mergeDuplicateSpaceFolders root) := by
  rw [mergeDuplicateSpaceFolders]
  apply hasRep_foldl_titles
  · intro t' _ s hs heq
    obtain ⟨heqel, ht'⟩ := tail_id_clash hnd htmem t' s hs heq
    have hnds := @groupSort_ids_nodup root t hnd
    rw [hsort, List.map_cons, List.nodup_cons] at hnds
    rw [ht', hsort] at hs
    simp only [List.tail_cons] at hs
    apply hnds.1
    rw [← heq]
    exact List.mem_map_of_mem _ (heqel ▸ hs)
  · exact ⟨target, (mem_foldersTitled.mp htmem).1, rfl, rfl, rfl, rfl⟩

theorem mergeGroupStep_eq {orig acc : List BNode} {t : String}
    {target : BNode} {rest : List BNode}
    (hgroup : 2 ≤ (foldersTitled orig t).length)
    (hsort : groupSortOf orig t = target :: rest) :
    mergeGroupStep orig acc t
      = rest.foldl (fun a s => mergeOneInto a target.nodeId s.nodeId) acc := by
  rw [mergeGroupStep, if_neg (by omega), hsort]

/-- Every merged-away source folder of a duplicate group is gone from the
top level after the whole routine. -/
theorem merge_deletes_sources {root : List BNode} {t : String} {target : BNode}
    {rest : List BNode}
    (hnd : (root.map BNode.nodeId).Nodup)
    (hgroup : 2 ≤ (foldersTitled root t).length)
    (hsort : groupSortOf root t = target :: rest)
    {src : BNode} (hsrc : src ∈ rest) :
    noId src.nodeId (mergeDuplicateSpaceFolders root) := by
  have hsrcsort : src ∈ groupSortOf root t := by
    rw [hsort]; exact List.mem_cons_of_mem _ hsrc
  have hsrcg : src ∈ foldersTitled root t := (groupSortOf_perm.mem_iff).mp hsrcsort
  have hsrcroot : src ∈ root := (mem_foldersTitled.mp hsrcg).1
  have hsrcfold : src.isFolder = true := (mem_foldersTitled.mp hsrcg).2.1
  -- the title t occurs in the processed title list
  have htin : t ∈ dedupStrings ((root.filter (fun n => n.isFolder)).map BNode.title) := by
    rw [mem_dedupStrings]
    refine List.mem_map.mpr ⟨src, ?_, (mem_foldersTitled.mp hsrcg).2.2⟩
    rw [List.mem_filter]
    exact ⟨hsrcroot, hsrcfold⟩
  obtain ⟨pre, suf, hsplit⟩ := List.append_of_mem htin
  have hndtitles : (dedupStrings ((root.filter (fun n => n.isFolder)).map BNode.title)).Nodup :=
    nodup_dedupStrings
  rw [hsplit] at hndtitles
  have htnotin : t ∉ pre ++ suf := (List.nodup_cons.mp (List.nodup_middle.mp hndtitles)).1
  have htpre : t ∉ pre := fun hc => htnotin (List.mem_append_left _ hc)
  -- ids within the sorted group are distinct
  have hnds := @groupSort_ids_nodup root t hnd
  rw [hsort, List.map_cons, List.nodup_cons] at hnds
  -- split the source tail at src
  obtain ⟨rpre, rsuf, hrsplit⟩ := List.append_of_mem hsrc
  have hndrest : (rest.map BNode.nodeId).Nodup := hnds.2
  rw [hrsplit, List.map_append, List.map_cons] at hndrest
  have hmid := List.nodup_middle.mp hndrest
  have hsrcnot := (List.nodup_cons.mp hmid).1
  -- src survives the prefix titles
  have hrep_pre : hasRep src
      (pre.foldl (mergeGroupStep root) root) := by
    apply hasRep_foldl_titles
    · intro t' ht' s hs heq
      obtain ⟨_, ht''⟩ := tail_id_clash hnd hsrcg t' s hs heq
      exact htpre (ht'' ▸ ht')
    · exact ⟨src, hsrcroot, rfl, rfl, rfl, rfl⟩
  -- src survives the earlier sources of its own group
  have hrep_inner : hasRep src
      (rpre.foldl (fun a s => mergeOneInto a target.nodeId s.nodeId)
        (pre.foldl (mergeGroupStep root) root)) := by
    apply hasRep_foldl_sources
    · intro s hs heq
      apply hsrcnot
      rw [← heq]
      exact List.mem_append_left _ (List.mem_map_of_mem _ hs)
    · exact hrep_pre
  -- src's own step deletes its id
  have hdel : noId src.nodeId
      (mergeOneInto
        (rpre.foldl (fun a s => mergeOneInto a target.nodeId s.nodeId)
          (pre.foldl (mergeGroupStep root) root))
        target.nodeId src.nodeId) := by
    obtain ⟨f, hf, h1, h2, h3, h4⟩ := hrep_inner
    exact mergeOneInto_noId ⟨f, hf, h3.trans hsrcfold, h1⟩
  -- assemble the full fold
  rw [mergeDuplicateSpaceFolders, hsplit, List.foldl_append, List.foldl_cons]
  apply noId_foldl_titles
  rw [mergeGroupStep_eq hgroup hsort, hrsplit, List.foldl_append, List.foldl_cons]
  apply noId_foldl_sources
  exact hdel

/-- C8: for every group of root-level folders sharing a title (with
distinct node ids and at least two members), the startup merge keeps the
folder with the oldest creation time: it survives the routine while every
other member of the group is deleted from the root level; and each merge
step behaves as claimed — a source bookmark whose URL already exists in
the target snapshot is discarded (not moved), a new-URL bookmark is moved
into the target, a source subfolder whose title exists in the snapshot is
merged recursively into the live target subfolder (and not re-added), a
unique-title subfolder is moved wholesale, and the emptied source folder
is removed. -/
theorem c8_merge_duplicate_folders
    (root : List BNode) (t : String)
    (hnd : (root.map BNode.nodeId).Nodup)
    (hgroup : 2 ≤ (foldersTitled root t).length) :
    (∃ target rest, groupSortOf root t = target :: rest
      ∧ target ∈ foldersTitled root t
      ∧ (∀ f ∈ foldersTitled root t, target.dateAdded ≤ f.dateAdded)
      ∧ hasRep target (mergeDuplicateSpaceFolders root)
      ∧ ∀ src ∈ rest, noId src.nodeId (mergeDuplicateSpaceFolders root))
    ∧ (∀ snap tgt : List BNode, ∀ i2 : Nat, ∀ t2 u2 : String,
        bookmarkUrlIn snap u2 = true →
        applyMergeItem snap tgt (BNode.bm i2 t2 u2) = tgt)
    ∧ (∀ snap tgt : List BNode, ∀ i2 : Nat, ∀ t2 u2 : String,
        bookmarkUrlIn snap u2 = false →
        applyMergeItem snap tgt (BNode.bm i2 t2 u2) = tgt ++ [BNode.bm i2 t2 u2])
    ∧ (∀ snap tgt : List BNode, ∀ i2 : Nat, ∀ t2 : String, ∀ d2 : Nat,
        ∀ ch2 : List BNode, ∀ ti : Nat, ∀ tt : String, ∀ dd : Nat, ∀ tch : List BNode,
        findFolderByTitle snap t2 = some (BNode.fold ti tt dd tch) →
        applyMergeItem snap tgt (BNode.fold i2 t2 d2 ch2)
          = tgt.map (mergeUpdateNode ti ch2))
    ∧ (∀ snap tgt : List BNode, ∀ i2 : Nat, ∀ t2 : String, ∀ d2 : Nat,
        ∀ ch2 : List BNode,
        findFolderByTitle snap t2 = Option.none →
        applyMergeItem snap tgt (BNode.fold i2 t2 d2 ch2)
          = tgt ++ [BNode.fold i2 t2 d2 ch2])
    ∧ (∀ children : List BNode, ∀ tgtId srcId : Nat, ∀ tt2 : String, ∀ td2 : Nat,
        ∀ tch2 : List BNode, ∀ si : Nat, ∀ st2 : String, ∀ sd : Nat, ∀ sch : List BNode,
        BNode.fold tgtId tt2 td2 tch2 ∈ children → tgtId ≠ srcId →
        findFolderById children srcId = some (BNode.fold si st2 sd sch) →
        BNode.fold tgtId tt2 td2 (mergeFolderContentsRecursive sch tch2)
          ∈ mergeOneInto children tgtId srcId) := by
  refine ⟨?_, ?_, ?_, ?_, ?_, ?_⟩
  · have hne : foldersTitled root t ≠ [] := by
      intro hc
      rw [hc] at hgroup
      simp at hgroup
    obtain ⟨target, rest, hsort, htmem, hmin⟩ := groupSort_head_min hne
    exact ⟨target, rest, hsort, htmem, hmin,
      merge_keeps_target hnd hsort htmem,
      fun src hsrc => merge_deletes_sources hnd hgroup hsort hsrc⟩
  · intro snap tgt i2 t2 u2 h
    exact applyMergeItem_bm_dup h
  · intro snap tgt i2 t2 u2 h
    exact applyMergeItem_bm_new h
  · intro snap tgt i2 t2 d2 ch2 ti tt dd tch h
    exact applyMergeItem_fold_merge h
  · intro snap tgt i2 t2 d2 ch2 h
    exact applyMergeItem_fold_move h
  · intro children tgtId srcId tt2 td2 tch2 si st2 sd sch hmem hne hfind
    exact mergeOneInto_target_mem hmem hne hfind

/-- Witness for C8 at a concrete tree: two root folders titled "A"
(created at times 10 and 5); the older folder (id 2) is kept, the newer
(id 1) is merged away and deleted. -/
theorem c8_merge_duplicate_folders_witness :
    hasRep (BNode.fold 2 "A" 5 [BNode.bm 201 "y" "u2"])
      (mergeDuplicateSpaceFolders
        [BNode.fold 1 "A" 10 [BNode.bm 101 "x" "u1"],
         BNode.fold 2 "A" 5 [BNode.bm 201 "y" "u2"]])
    ∧ noId 1 (mergeDuplicateSpaceFolders
        [BNode.fold 1 "A" 10 [BNode.bm 101 "x" "u1"],
         BNode.fold 2 "A" 5 [BNode.bm 201 "y" "u2"]]) := by
  obtain ⟨hmain, _, _, _, _, _⟩ := c8_merge_duplicate_folders
    [BNode.fold 1 "A" 10 [BNode.bm 101 "x" "u1"],
     BNode.fold 2 "A" 5 [BNode.bm 201 "y" "u2"]] "A"
    (by decide) (by decide)
  obtain ⟨target, rest, hsort, _, _, hkeep, hdel⟩ := hmain
  have hconc : groupSortOf
      [BNode.fold 1 "A" 10 [BNode.bm 101 "x" "u1"],
       BNode.fold 2 "A" 5 [BNode.bm 201 "y" "u2"]] "A"
      = [BNode.fold 2 "A" 5 [BNode.bm 201 "y" "u2"],
         BNode.fold 1 "A" 10 [BNode.bm 101 "x" "u1"]] := rfl
  rw [hconc] at hsort
  have htarget : target = BNode.fold 2 "A" 5 [BNode.bm 201 "y" "u2"] :=
    (List.cons.inj hsort).1.symm
  have hrest : rest = [BNode.fold 1 "A" 10 [BNode.bm 101 "x" "u1"]] :=
    (List.cons.inj hsort).2.symm
  constructor
  · exact htarget ▸ hkeep
  · have := hdel (BNode.fold 1 "A" 10 [BNode.bm 101 "x" "u1"])
      (by rw [hrest]; exact List.mem_cons_self _ _)
    exact this

/-- C9 counterexample: tab 7 is open at `a.com/p1`; bookmark 1 points to
`a.com/p1`, bookmark 2 to `a.com/p2`, and tab 7's stored pinned state
references bookmark 2. Bookmark 1 claims tab 7 by exact URL, then
bookmark 2 claims the *same* tab by stored bookmark id: one live tab ends
up representing two bookmarks, refuting the claim's uniqueness part. -/
theorem c9_counterexample :
    loadMatches [⟨7, ⟨"https://a.com", "/p1", ""⟩⟩] [(7, 2)] []
        [⟨1, ⟨"https://a.com", "/p1", ""⟩⟩, ⟨2, ⟨"https://a.com", "/p2", ""⟩⟩]
      = [(⟨1, ⟨"https://a.com", "/p1", ""⟩⟩, some ⟨7, ⟨"https://a.com", "/p1", ""⟩⟩),
         (⟨2, ⟨"https://a.com", "/p2", ""⟩⟩, some ⟨7, ⟨"https://a.com", "/p1", ""⟩⟩)]
    ∧ ((loadMatches [⟨7, ⟨"https://a.com", "/p1", ""⟩⟩] [(7, 2)] []
        [⟨1, ⟨"https://a.com", "/p1", ""⟩⟩, ⟨2, ⟨"https://a.com", "/p2", ""⟩⟩]).filter
          (fun p => p.2 == some ⟨7, ⟨"https://a.com", "/p1", ""⟩⟩)).length = 2 := by
  decide

/-- C9 (amended): the matcher uses exactly the stated precedence — stored
pinned-state bookmark id first, then exact URL, then origin+path — and
the origin+path fallback never selects a tab already claimed for another
bookmark (and only selects a tab with the matching origin+path key); but
uniqueness is enforced only for that third tier: a tab already claimed
may be selected again by a stored-bookmark-id or exact-URL match. The
loop threads the claimed-tab set and the processed-URL set as stated. -/
theorem c9_matching_precedence
    (tabs : List OTab) (pinnedStates : List (Nat × Nat))
    (represented : List Nat) (b : BookmarkEntry) :
    (∀ t, tabs.find? (fun t => pinnedStates.lookup t.id == some b.id) = some t →
      resolveBookmarkTab tabs pinnedStates represented b = some t)
    ∧ (tabs.find? (fun t => pinnedStates.lookup t.id == some b.id) = Option.none →
      ∀ t, findTabByUrl tabs b.url = some t →
      resolveBookmarkTab tabs pinnedStates represented b = some t)
    ∧ (tabs.find? (fun t => pinnedStates.lookup t.id == some b.id) = Option.none →
      findTabByUrl tabs b.url = Option.none →
      ∀ t, resolveBookmarkTab tabs pinnedStates represented b = some t →
        t.id ∉ represented ∧ t.id ≠ 0
        ∧ getPinnedUrlKey t.url = getPinnedUrlKey b.url)
    ∧ (∀ (pinnedUrls : List Url) (rest : List BookmarkEntry)
        (processedUrls : List Url),
        (b.url ∈ processedUrls ∨ b.url ∈ pinnedUrls →
          processBookmarks tabs pinnedStates pinnedUrls (b :: rest)
              processedUrls represented
            = processBookmarks tabs pinnedStates pinnedUrls rest
                processedUrls represented)
        ∧ (b.url ∉ processedUrls → b.url ∉ pinnedUrls →
          ∀ tab, resolveBookmarkTab tabs pinnedStates represented b = some tab →
          processBookmarks tabs pinnedStates pinnedUrls (b :: rest)
              processedUrls represented
            = (b, some tab) :: processBookmarks tabs pinnedStates pinnedUrls rest
                (b.url :: processedUrls) (represented ++ [tab.id]))) := by
  refine ⟨?_, ?_, ?_, ?_⟩
  · intro t h
    rw [resolveBookmarkTab]
    simp only [h]
    rfl
  · intro hid t h
    rw [resolveBookmarkTab]
    simp only [hid, h]
    rfl
  · intro hid hurl t h
    rw [resolveBookmarkTab] at h
    simp only [hid, hurl, Option.orElse] at h
    have hp := List.find?_some h
    have hp1 := (Bool.and_eq_true _ _).mp hp
    have hp2 := (Bool.and_eq_true _ _).mp hp1.1
    refine ⟨?_, by simpa using hp2.1, by simpa using hp1.2⟩
    intro hc
    have : (represented.contains t.id) = true := by simpa using hc
    rw [this] at hp2
    simp at hp2
  · intro pinnedUrls rest processedUrls
    constructor
    · intro h
      rw [processBookmarks, if_pos h]
    · intro h1 h2 tab hres
      rw [processBookmarks, if_neg (by
        rintro (hc | hc)
        · exact h1 hc
        · exact h2 hc), hres]

/-- Witness for C9 (amended) at concrete inputs: with no pinned state, a
tab matching by exact URL is selected; with neither id nor URL match, the
origin+path fallback picks the unclaimed tab and reports a key match. -/
theorem c9_matching_precedence_witness :
    resolveBookmarkTab [⟨7, ⟨"https://a.com", "/p1", ""⟩⟩] [] []
        ⟨1, ⟨"https://a.com", "/p1", ""⟩⟩
      = some ⟨7, ⟨"https://a.com", "/p1", ""⟩⟩
    ∧ ((7 : Nat) ∉ ([] : List Nat)
      ∧ (7 : Nat) ≠ 0
      ∧ getPinnedUrlKey ⟨"https://a.com", "/p1", "?q=1"⟩
          = getPinnedUrlKey ⟨"https://a.com", "/p1", ""⟩) := by
  have h1 := (c9_matching_precedence [⟨7, ⟨"https://a.com", "/p1", ""⟩⟩] [] []
    ⟨1, ⟨"https://a.com", "/p1", ""⟩⟩).2.1 (by decide)
    ⟨7, ⟨"https://a.com", "/p1", ""⟩⟩ (by decide)
  have h2 := (c9_matching_precedence [⟨7, ⟨"https://a.com", "/p1", "?q=1"⟩⟩] [] []
    ⟨1, ⟨"https://a.com", "/p1", ""⟩⟩).2.2.1 (by decide) (by decide)
    ⟨7, ⟨"https://a.com", "/p1", "?q=1"⟩⟩ (by decide)
  exact ⟨h1, h2⟩

end BarCat
